import Mathlib

/-!
Verification of the dotenv-guard type-inference and schema-validation engine.

The JavaScript sources are embedded shallowly: strings are `List Char`,
JavaScript objects holding env vars are association lists, thrown
exceptions are `Except` errors.  Platform primitives used by the source
(`String.prototype.trim`, `parseInt`, `parseFloat`, `JSON.parse`,
`JSON.stringify`, the WHATWG `URL` constructor, and the zod validators)
are modelled by executable Lean functions; each such model carries a doc
comment naming the primitive it stands for.  Everything else is a direct
transcription of the repository's code in `src/utils.js`, `src/generate.js`
and `src/validate.js`.
-/

namespace DotenvGuard

/-! ## Character classes and basic list utilities -/

/-- ASCII decimal digit, the `\d` class of the source's regexes. -/
def isDigitCh (c : Char) : Bool := 48 ≤ c.toNat && c.toNat ≤ 57

/-- ASCII letter. -/
def isAlphaCh (c : Char) : Bool :=
  (65 ≤ c.toNat && c.toNat ≤ 90) || (97 ≤ c.toNat && c.toNat ≤ 122)

/-- ASCII letter or digit. -/
def isAlphaNumCh (c : Char) : Bool := isAlphaCh c || isDigitCh c

/-- Models the ECMAScript whitespace class used by `String.prototype.trim`
and the `\s` regex class: space, tab, LF, VT, FF, CR, NBSP, BOM
(the remaining Unicode space separators are omitted; no claim settled
here involves them). -/
def isWsCh (c : Char) : Bool :=
  c.toNat = 32 || c.toNat = 9 || c.toNat = 10 || c.toNat = 11 ||
  c.toNat = 12 || c.toNat = 13 || c.toNat = 160 || c.toNat = 65279

/-- Models `String.prototype.trim`: drop whitespace from both ends. -/
def jsTrim (cs : List Char) : List Char :=
  ((cs.dropWhile isWsCh).reverse.dropWhile isWsCh).reverse

/-- ASCII lower-casing of one character, modelling the case folding that
the source's `/i` regex flags and `String.prototype.toLowerCase` perform
on the ASCII inputs relevant here. -/
def lowerCh (c : Char) : Char :=
  if 65 ≤ c.toNat && c.toNat ≤ 90 then Char.ofNat (c.toNat + 32) else c

/-- ASCII lower-casing of a string. -/
def lowerL (cs : List Char) : List Char := cs.map lowerCh

/-- Does `cs` start with `p` (JS `startsWith` / regex `^...` anchor)? -/
def leadsWith : List Char → List Char → Bool
  | _, [] => true
  | [], _ :: _ => false
  | c :: cs, p :: ps => c = p && leadsWith cs ps

/-- Does `cs` end with `p` (JS `endsWith` / regex `...$` anchor)? -/
def trailsWith (cs p : List Char) : Bool := leadsWith cs.reverse p.reverse

/-- Does `cs` contain `p` as a contiguous substring (JS `indexOf !== -1`,
regex unanchored match)? -/
def hasSub : List Char → List Char → Bool
  | cs, p => if leadsWith cs p then true else
    match cs with
    | [] => false
    | _ :: rest => hasSub rest p

/-- Models `String.prototype.indexOf` restricted to a needle string:
index of the first occurrence, `none` for JavaScript's `-1`. -/
def indexOfSub (cs p : List Char) : Option Nat :=
  if leadsWith cs p then some 0 else
    match cs with
    | [] => none
    | _ :: rest => (indexOfSub rest p).map (· + 1)

/-- Numeric value of a digit string (used under guards that ensure all
characters are digits). -/
def digitsToNat (cs : List Char) : Nat :=
  cs.foldl (fun n c => n * 10 + (c.toNat - 48)) 0

/-! ## The source's regular expressions, as executable matchers -/

/-- Drop one leading minus sign, the `-?` of the numeric regexes. -/
def dropMinus : List Char → List Char
  | c :: cs => if c.toNat = 45 then cs else c :: cs
  | [] => []

/-- One-or-more digits spanning the whole string: `^\d+$`. -/
def matchDigits1 (cs : List Char) : Bool := !cs.isEmpty && cs.all isDigitCh

/-- The source's integer regex `^-?\d+$`. -/
def matchIntRe (cs : List Char) : Bool := matchDigits1 (dropMinus cs)

/-- The source's float regex `^-?\d+\.\d+$`. -/
def matchNumRe (cs : List Char) : Bool :=
  let cs1 := dropMinus cs
  let d1 := cs1.takeWhile isDigitCh
  let rest := cs1.dropWhile isDigitCh
  !d1.isEmpty &&
    (match rest with
     | c :: r2 => c.toNat = 46 && matchDigits1 r2
     | [] => false)

/-- The source's boolean regex `/^(true|false)$/i` applied to an
already-trimmed string. -/
def matchBoolRe (cs : List Char) : Bool :=
  lowerL cs = "true".data || lowerL cs = "false".data

/-- One segment `[^\s@]+` of the source's email regex. -/
def emailSegOk (cs : List Char) : Bool :=
  !cs.isEmpty && cs.all (fun c => !isWsCh c && c.toNat ≠ 64)

/-- The `[^\s@]+\.[^\s@]+` part of the email regex: some dot splits the
string into two valid segments. -/
def emailDomainOk (cs : List Char) : Bool :=
  (List.range cs.length).any (fun i =>
    (cs.getD i ' ').toNat = 46 && emailSegOk (cs.take i) && emailSegOk (cs.drop (i + 1)))

/-- The source's email regex `/^[^\s@]+@[^\s@]+\.[^\s@]+$/`. -/
def matchEmailRe (cs : List Char) : Bool :=
  (List.range cs.length).any (fun i =>
    (cs.getD i ' ').toNat = 64 && emailSegOk (cs.take i) && emailDomainOk (cs.drop (i + 1)))

/-! ## Model of the WHATWG URL constructor -/

/-- Scheme character after the first: `[A-Za-z0-9+.\-]`. -/
def isSchemeCh (c : Char) : Bool :=
  isAlphaNumCh c || c.toNat = 43 || c.toNat = 46 || c.toNat = 45

/-- Schemes the WHATWG standard treats as special (needing a host).
`file` is handled as opaque here; no settled claim involves it. -/
def isSpecialScheme (s : List Char) : Bool :=
  s = "http".data || s = "https".data || s = "ftp".data ||
  s = "ws".data || s = "wss".data

/-- Forbidden host code points (subset sufficient for the claims). -/
def isBadHostCh (c : Char) : Bool :=
  isWsCh c || c.toNat = 35 || c.toNat = 47 || c.toNat = 58 || c.toNat = 63 ||
  c.toNat = 64 || c.toNat = 91 || c.toNat = 93 || c.toNat = 92

/-- Drop everything up to and including the last `@` (userinfo). -/
def afterLastAt (cs : List Char) : List Char :=
  if cs.any (fun c => c.toNat = 64) then
    (cs.reverse.takeWhile (fun c => c.toNat ≠ 64)).reverse
  else cs

/-- Models success of the WHATWG `new URL(value)` constructor, as used by
`inferType`, `convertValue` for the `url` type, and zod's `.url()` check
(zod v3 likewise attempts `new URL`).  A scheme `[A-Za-z][A-Za-z0-9+.\-]*`
followed by `:` is required; the special schemes additionally require
`//` and a nonempty host free of forbidden code points, with an optional
all-digit port.  (The standard would also accept special-scheme URLs
written without `//`; the claims settled here never consult the model on
such strings.) -/
def jsURLParses (cs : List Char) : Bool :=
  let scheme := cs.takeWhile (fun c => c.toNat ≠ 58)
  let rest := cs.dropWhile (fun c => c.toNat ≠ 58)
  match rest with
  | [] => false
  | _ :: afterColon =>
    (match scheme with
     | [] => false
     | c0 :: s' =>
       isAlphaCh c0 && s'.all isSchemeCh &&
         (if isSpecialScheme (lowerL scheme) then
            match afterColon with
            | c1 :: c2 :: rest2 =>
              if c1.toNat = 47 && c2.toNat = 47 then
                let authority := rest2.takeWhile (fun c =>
                  !(c.toNat = 47 || c.toNat = 63 || c.toNat = 35 || c.toNat = 92))
                let hostPort := afterLastAt authority
                let host := hostPort.takeWhile (fun c => c.toNat ≠ 58)
                let portPart := (hostPort.dropWhile (fun c => c.toNat ≠ 58)).drop 1
                !host.isEmpty && host.all (fun c => !isBadHostCh c) &&
                  portPart.all isDigitCh
              else false
            | _ => false
          else true))

/-! ## Model of JSON values, `JSON.parse` and `JSON.stringify` -/

/-- A parsed JSON value.  String and number atoms keep their source
lexeme (for strings, the text between the quotes with escape sequences
undecoded); re-serialization emits the lexeme unchanged.  This is a
deliberate simplification of the platform's decode/re-encode — none of
the claims settled here depend on number reformatting or escape
normalization. -/
inductive JsValue where
  | vnull : JsValue
  | vbool : Bool → JsValue
  | vnum : List Char → JsValue
  | vstr : List Char → JsValue
  | varr : List JsValue → JsValue
  | vobj : List (List Char × JsValue) → JsValue

/-- JSON whitespace (space, tab, LF, CR). -/
def isJsonWsCh (c : Char) : Bool :=
  c.toNat = 32 || c.toNat = 9 || c.toNat = 10 || c.toNat = 13

/-- Hexadecimal digit. -/
def isHexCh (c : Char) : Bool :=
  isDigitCh c || (97 ≤ c.toNat && c.toNat ≤ 102) || (65 ≤ c.toNat && c.toNat ≤ 70)

/-- Single-character JSON string escapes. -/
def isSimpleEscCh (c : Char) : Bool :=
  c.toNat = 34 || c.toNat = 92 || c.toNat = 47 || c.toNat = 98 ||
  c.toNat = 102 || c.toNat = 110 || c.toNat = 114 || c.toNat = 116

/-- Parse the body of a JSON string after the opening quote; returns the
inner lexeme and the remaining input after the closing quote. -/
def parseJStr : Nat → List Char → List Char → Option (List Char × List Char)
  | 0, _, _ => none
  | _, [], _ => none
  | fuel + 1, c :: rest, acc =>
    if c.toNat = 34 then some (acc.reverse, rest)
    else if c.toNat = 92 then
      match rest with
      | [] => none
      | e :: rest2 =>
        if isSimpleEscCh e then parseJStr fuel rest2 (e :: c :: acc)
        else if e.toNat = 117 then
          match rest2 with
          | h1 :: h2 :: h3 :: h4 :: rest3 =>
            if isHexCh h1 && isHexCh h2 && isHexCh h3 && isHexCh h4 then
              parseJStr fuel rest3 (h4 :: h3 :: h2 :: h1 :: e :: c :: acc)
            else none
          | _ => none
        else none
    else if c.toNat < 32 then none
    else parseJStr fuel rest (c :: acc)

/-- Parse a JSON number lexeme `-?(0|[1-9]\d*)(\.\d+)?([eE][+-]?\d+)?`;
returns the lexeme and the remaining input. -/
def parseJNum (cs : List Char) : Option (List Char × List Char) :=
  let (sign, cs1) :=
    match cs with
    | c :: r => if c.toNat = 45 then ([c], r) else ([], cs)
    | [] => ([], [])
  let intPart := cs1.takeWhile isDigitCh
  let rest1 := cs1.dropWhile isDigitCh
  if intPart.isEmpty then none
  else if 1 < intPart.length && (intPart.getD 0 ' ').toNat = 48 then none
  else
    let (fracPart, rest2) :=
      match rest1 with
      | c :: r =>
        if c.toNat = 46 then
          let ds := r.takeWhile isDigitCh
          if ds.isEmpty then ([], rest1) else (c :: ds, r.dropWhile isDigitCh)
        else ([], rest1)
      | [] => ([], rest1)
    if fracPart.isEmpty && (match rest1 with | c :: _ => c.toNat = 46 | [] => false) then none
    else
      let (expPart, rest3) :=
        match rest2 with
        | c :: r =>
          if c.toNat = 101 || c.toNat = 69 then
            let (sgn, r2) :=
              match r with
              | s :: r2 => if s.toNat = 43 || s.toNat = 45 then ([s], r2) else ([], r)
              | [] => ([], r)
            let ds := r2.takeWhile isDigitCh
            if ds.isEmpty then ([], rest2)
            else (c :: (sgn ++ ds), r2.dropWhile isDigitCh)
          else ([], rest2)
        | [] => ([], rest2)
      if !expPart.isEmpty && (match rest2 with | c :: _ => (c.toNat = 101 || c.toNat = 69) | [] => false) && expPart.isEmpty then none
      else some (sign ++ intPart ++ fracPart ++ expPart, rest3)

/-- Replace the value of an existing key, else append.  Duplicate keys in
a JSON object text keep the first position and the last value, as in
`JSON.parse`. -/
def insertField : List (List Char × JsValue) → List Char → JsValue →
    List (List Char × JsValue)
  | [], k, v => [(k, v)]
  | (k0, v0) :: fs, k, v =>
    if k0 = k then (k0, v) :: fs else (k0, v0) :: insertField fs k v

mutual

/-- One JSON value (recursive descent, fuel-bounded). -/
def parseJVal : Nat → List Char → Option (JsValue × List Char)
  | 0, _ => none
  | fuel + 1, cs =>
    let cs := cs.dropWhile isJsonWsCh
    match cs with
    | [] => none
    | c :: rest =>
      if c.toNat = 123 then parseJObj fuel rest []
      else if c.toNat = 91 then parseJArr fuel rest []
      else if c.toNat = 34 then (parseJStr fuel rest []).map (fun p => (JsValue.vstr p.1, p.2))
      else if leadsWith cs "true".data then some (JsValue.vbool true, cs.drop 4)
      else if leadsWith cs "false".data then some (JsValue.vbool false, cs.drop 5)
      else if leadsWith cs "null".data then some (JsValue.vnull, cs.drop 4)
      else (parseJNum cs).map (fun p => (JsValue.vnum p.1, p.2))

/-- Array elements after `[`, accumulating parsed items. -/
def parseJArr : Nat → List Char → List JsValue → Option (JsValue × List Char)
  | 0, _, _ => none
  | fuel + 1, cs, acc =>
    let cs := cs.dropWhile isJsonWsCh
    match cs with
    | [] => none
    | c :: rest =>
      if c.toNat = 93 && acc.isEmpty then some (JsValue.varr [], rest)
      else
        match parseJVal fuel cs with
        | none => none
        | some (v, rest2) =>
          let rest2 := rest2.dropWhile isJsonWsCh
          match rest2 with
          | [] => none
          | d :: rest3 =>
            if d.toNat = 44 then parseJArr fuel rest3 (v :: acc)
            else if d.toNat = 93 then some (JsValue.varr (v :: acc).reverse, rest3)
            else none

/-- Object members after an opening brace, accumulating parsed fields.
Duplicate keys keep the first position and the last value, as
`JSON.parse` does. -/
def parseJObj : Nat → List Char → List (List Char × JsValue) → Option (JsValue × List Char)
  | 0, _, _ => none
  | fuel + 1, cs, acc =>
    let cs := cs.dropWhile isJsonWsCh
    match cs with
    | [] => none
    | c :: rest =>
      if c.toNat = 125 && acc.isEmpty then some (JsValue.vobj [], rest)
      else if c.toNat = 34 then
        match parseJStr fuel rest [] with
        | none => none
        | some (k, rest2) =>
          let rest2 := rest2.dropWhile isJsonWsCh
          match rest2 with
          | [] => none
          | d :: rest3 =>
            if d.toNat = 58 then
              match parseJVal fuel rest3 with
              | none => none
              | some (v, rest4) =>
                let rest4 := rest4.dropWhile isJsonWsCh
                match rest4 with
                | [] => none
                | e :: rest5 =>
                  if e.toNat = 44 then parseJObj fuel rest5 (insertField acc k v)
                  else if e.toNat = 125 then
                    some (JsValue.vobj (insertField acc k v), rest5)
                  else none
            else none
      else none

end

/-- Models `JSON.parse`: `some` the parsed value, `none` for a thrown
`SyntaxError`. -/
def jsonParse (cs : List Char) : Option JsValue :=
  match parseJVal (cs.length + 1) cs with
  | some (v, rest) => if (rest.dropWhile isJsonWsCh).isEmpty then some v else none
  | none => none

/-- Field lookup on a JSON value, modelling JavaScript property access:
`none` is `undefined` (also for access on a non-object). -/
def getField (v : JsValue) (name : List Char) : Option JsValue :=
  match v with
  | JsValue.vobj fields =>
    match fields.find? (fun f => f.1 = name) with
    | some f => some f.2
    | none => none
  | _ => none

/-- Indent every rendered item and join with `,\n`. -/
def joinIndented (items : List (List Char)) (ind : Nat) : List Char :=
  match items with
  | [] => []
  | [x] => List.replicate ind ' ' ++ x
  | x :: y :: rest =>
    List.replicate ind ' ' ++ x ++ (',' :: '\n' :: joinIndented (y :: rest) ind)

mutual

/-- Models `JSON.stringify(v, null, 2)`: pretty-printing with two-space
indentation, lexemes re-emitted unchanged. -/
def stringifyVal : JsValue → Nat → List Char
  | JsValue.vnull, _ => "null".data
  | JsValue.vbool true, _ => "true".data
  | JsValue.vbool false, _ => "false".data
  | JsValue.vnum lex, _ => lex
  | JsValue.vstr lex, _ => '"' :: (lex ++ ['"'])
  | JsValue.varr [], _ => "[]".data
  | JsValue.varr (x :: xs), ind =>
    '[' :: '\n' :: (joinIndented (stringifyItems (x :: xs) (ind + 2)) (ind + 2) ++
      ('\n' :: (List.replicate ind ' ' ++ [']'])))
  | JsValue.vobj [], _ => "\x7b\x7d".data
  | JsValue.vobj (f :: fs), ind =>
    '\x7b' :: '\n' :: (joinIndented (stringifyFields (f :: fs) (ind + 2)) (ind + 2) ++
      ('\n' :: (List.replicate ind ' ' ++ ['\x7d'])))

/-- Stringify each array element. -/
def stringifyItems : List JsValue → Nat → List (List Char)
  | [], _ => []
  | x :: xs, ind => stringifyVal x ind :: stringifyItems xs ind

/-- Stringify each object member as `"key": value`. -/
def stringifyFields : List (List Char × JsValue) → Nat → List (List Char)
  | [], _ => []
  | (k, v) :: fs, ind =>
    ('"' :: (k ++ ('"' :: ':' :: ' ' :: stringifyVal v ind))) :: stringifyFields fs ind

end

/-! ## JavaScript numbers, `parseInt` and `parseFloat` models -/

/-- A JavaScript number as far as the claims need it: an exact rational,
or an infinity.  (IEEE-754 rounding is not modelled; the schema bounds
and converted values appearing in the claims are exactly representable.) -/
inductive JsNum where
  | fin : ℚ → JsNum
  | inf : Bool → JsNum
deriving DecidableEq

/-- Comparison `a ≤ b` on modelled JavaScript numbers. -/
def jsNumLe : JsNum → JsNum → Bool
  | JsNum.fin a, JsNum.fin b => a ≤ b
  | JsNum.inf true, _ => true
  | JsNum.inf false, JsNum.inf false => true
  | JsNum.inf false, _ => false
  | JsNum.fin _, JsNum.inf neg => !neg

/-- `Number.isInteger` on modelled JavaScript numbers. -/
def jsNumIsInt : JsNum → Bool
  | JsNum.fin q => q.den = 1
  | JsNum.inf _ => false

/-- Numeric value of a digit-and-dot-and-exponent decomposition:
`sign * (int . frac) * 10 ^ exp`. -/
def decToQ (neg : Bool) (intDs fracDs : List Char) (exp : Int) : ℚ :=
  let mant : ℚ := (digitsToNat (intDs ++ fracDs) : ℚ) / ((10 : ℚ) ^ fracDs.length)
  let m : ℚ := mant * (10 : ℚ) ^ exp
  if neg then -m else m

/-- Numeric value of a JSON number lexeme (used for truthiness and for
schema bounds). -/
def numLexToQ (lex : List Char) : ℚ :=
  let (neg, cs1) :=
    match lex with
    | c :: r => if c.toNat = 45 then (true, r) else (false, lex)
    | [] => (false, [])
  let intDs := cs1.takeWhile isDigitCh
  let rest1 := cs1.dropWhile isDigitCh
  let (fracDs, rest2) :=
    match rest1 with
    | c :: r => if c.toNat = 46 then (r.takeWhile isDigitCh, r.dropWhile isDigitCh) else ([], rest1)
    | [] => ([], rest1)
  let exp : Int :=
    match rest2 with
    | c :: r =>
      if c.toNat = 101 || c.toNat = 69 then
        match r with
        | s :: r2 =>
          if s.toNat = 45 then -(digitsToNat (r2.takeWhile isDigitCh) : Int)
          else if s.toNat = 43 then (digitsToNat (r2.takeWhile isDigitCh) : Int)
          else (digitsToNat (r.takeWhile isDigitCh) : Int)
        | [] => 0
      else 0
    | [] => 0
  decToQ neg intDs fracDs exp

/-- Models `parseInt(s, 10)`: skip whitespace, optional sign, then the
longest digit prefix; `none` is `NaN`. -/
def jsParseInt10 (cs : List Char) : Option Int :=
  let cs1 := cs.dropWhile isWsCh
  let (neg, cs2) :=
    match cs1 with
    | c :: r =>
      if c.toNat = 45 then (true, r)
      else if c.toNat = 43 then (false, r)
      else (false, cs1)
    | [] => (false, [])
  let ds := cs2.takeWhile isDigitCh
  if ds.isEmpty then none
  else some (if neg then -(digitsToNat ds : Int) else (digitsToNat ds : Int))

/-- Models `parseFloat(s)`: skip whitespace, optional sign, then the
longest valid decimal prefix (`Infinity`, or digits with optional
fraction and exponent; a bare `.` may begin the fraction); `none` is
`NaN`. -/
def jsParseFloat (cs : List Char) : Option JsNum :=
  let cs1 := cs.dropWhile isWsCh
  let (neg, cs2) :=
    match cs1 with
    | c :: r =>
      if c.toNat = 45 then (true, r)
      else if c.toNat = 43 then (false, r)
      else (false, cs1)
    | [] => (false, [])
  if leadsWith cs2 "Infinity".data then some (JsNum.inf neg)
  else
    let intDs := cs2.takeWhile isDigitCh
    let rest1 := cs2.dropWhile isDigitCh
    let (fracDs, rest2) :=
      match rest1 with
      | c :: r =>
        if c.toNat = 46 then (r.takeWhile isDigitCh, r.dropWhile isDigitCh)
        else ([], rest1)
      | [] => ([], rest1)
    if intDs.isEmpty && fracDs.isEmpty then none
    else
      let exp : Int :=
        match rest2 with
        | c :: r =>
          if c.toNat = 101 || c.toNat = 69 then
            match r with
            | s :: r2 =>
              if s.toNat = 45 then
                let ds := r2.takeWhile isDigitCh
                if ds.isEmpty then 0 else -(digitsToNat ds : Int)
              else if s.toNat = 43 then
                let ds := r2.takeWhile isDigitCh
                if ds.isEmpty then 0 else (digitsToNat ds : Int)
              else
                let ds := r.takeWhile isDigitCh
                if ds.isEmpty then 0 else (digitsToNat ds : Int)
            | [] => 0
          else 0
        | [] => 0
      some (JsNum.fin (decToQ neg intDs fracDs exp))

/-- JavaScript truthiness of a JSON value: `null`, `false`, numeric zero
and the empty string are falsy; objects and arrays are truthy. -/
def jsTruthy (v : JsValue) : Bool :=
  match v with
  | JsValue.vnull => false
  | JsValue.vbool b => b
  | JsValue.vnum lex => numLexToQ lex ≠ 0
  | JsValue.vstr lex => !lex.isEmpty
  | JsValue.varr _ => true
  | JsValue.vobj _ => true

/-- Truthiness of an optional field (`none` is `undefined`, falsy). -/
def jsTruthyOpt : Option JsValue → Bool
  | some v => jsTruthy v
  | none => false

/-! ## `inferType` (src/utils.js) -/

/-- The inferred-type tags of the source. -/
inductive InferredType where
  | string | boolean | integer | number | port | json | url | email
deriving DecidableEq

/-- Transcription of `inferType` in `src/utils.js`: the ordered cascade
boolean → integer → number → url → json → email → port → string.  The
initial guard `!value` makes the empty string a `string`. -/
def inferType (value : List Char) : InferredType :=
  if value.isEmpty then InferredType.string
  else if matchBoolRe (jsTrim value) then InferredType.boolean
  else if matchIntRe (jsTrim value) then InferredType.integer
  else if matchNumRe (jsTrim value) then InferredType.number
  else if jsURLParses value &&
      (leadsWith value "http://".data || leadsWith value "https://".data ||
        leadsWith value "ftp://".data) then InferredType.url
  else if ((value.headD ' ').toNat = 123 && (value.getLastD ' ').toNat = 125 ||
        (value.headD ' ').toNat = 91 && (value.getLastD ' ').toNat = 93) &&
      (jsonParse value).isSome then InferredType.json
  else if matchEmailRe value then InferredType.email
  else if matchDigits1 value &&
      0 < digitsToNat value && digitsToNat value ≤ 65535 then InferredType.port
  else InferredType.string

/-! ## `isSecretKey` (src/utils.js) -/

/-- Transcription of `isSecretKey`: the thirteen case-insensitive
patterns of the source, in order.  `hasSub` renders an unanchored
pattern, `trailsWith` a `$`-anchored one, `leadsWith` a `^`-anchored
one. -/
def isSecretKey (key : List Char) : Bool :=
  let k := lowerL key
  hasSub k "password".data || hasSub k "secret".data || hasSub k "token".data ||
  trailsWith k "key".data || leadsWith k "api_key".data || hasSub k "auth".data ||
  hasSub k "private".data || hasSub k "credential".data ||
  trailsWith k "_key".data || trailsWith k "_secret".data ||
  trailsWith k "_token".data || hasSub k "jwt".data || hasSub k "bearer".data

/-! ## `generateExampleValue` (src/utils.js) -/

/-- The fixed placeholder that the secret branch of
`generateExampleValue` returns for each inferred type. -/
def secretPlaceholder : InferredType → List Char
  | InferredType.string => "your-secret-here".data
  | InferredType.integer => "***".data
  | InferredType.number => "***".data
  | InferredType.port => "***".data
  | InferredType.boolean => "true".data
  | InferredType.url => "https://your-secret-url.com".data
  | InferredType.email => "your-email@example.com".data
  | InferredType.json => "\x7b\"secret\": \"value\"\x7d".data

/-- Transcription of `generateExampleValue`: secret keys get the fixed
placeholder for their type; non-secret values are echoed, except that
booleans are lower-cased, JSON is re-serialized with 2-space indentation
(the parse failure fallback returns the value), and default/string
values longer than 20 characters are truncated to 20 plus `...`. -/
def generateExampleValue (key value : List Char) (type : InferredType) : List Char :=
  if isSecretKey key then secretPlaceholder type
  else
    match type with
    | InferredType.boolean =>
      if lowerL value = "true".data then "true".data else "false".data
    | InferredType.integer => value
    | InferredType.number => value
    | InferredType.port => if value = "3000".data then "3000".data else value
    | InferredType.url => value
    | InferredType.email => value
    | InferredType.json =>
      match jsonParse value with
      | some j => stringifyVal j 0
      | none => value
    | InferredType.string =>
      if 20 < value.length then value.take 20 ++ "...".data else value

/-! ## Schema markers (src/utils.js) and the merge write path (src/generate.js) -/

/-- The marker lines `parseSchemaMarkers` searches for. -/
def startMarker : List Char := "// dotenv-shield:start".data

/-- The end marker line `parseSchemaMarkers` searches for. -/
def endMarker : List Char := "// dotenv-shield:end".data

/-- The result object of `parseSchemaMarkers`: `endIndex` is, as in the
source, the index just past the end marker. -/
structure Markers where
  before : List Char
  after : List Char
  startIndex : Nat
  endIndex : Nat
deriving DecidableEq

/-- Transcription of `parseSchemaMarkers`: `indexOf` both marker lines,
`null` when either is absent. -/
def parseSchemaMarkers (content : List Char) : Option Markers :=
  match indexOfSub content startMarker, indexOfSub content endMarker with
  | some si, some ei =>
    some { before := content.take si,
           after := content.drop (ei + endMarker.length),
           startIndex := si,
           endIndex := ei + endMarker.length }
  | _, _ => none

/-- Models `String.prototype.substring`, which swaps its arguments when
`a > b`. -/
def jsSubstring (cs : List Char) (a b : Nat) : List Char :=
  (cs.take (max a b)).drop (min a b)

/-- The marker line the merge write path of `generateSchema` emits. -/
def guardStartLine : List Char := "// dotenv-guard:start".data

/-- The end marker line the merge write path of `generateSchema` emits. -/
def guardEndLine : List Char := "// dotenv-guard:end".data

/-- The merge-mode write path of `generateSchema` (src/generate.js,
lines 151-181): the final content written to the schema file, given the
pre-existing file content (`none` when the file does not exist) and the
freshly serialized schema JSON. -/
def mergeWriteContent (existing : Option (List Char)) (schemaJson : List Char) : List Char :=
  match existing with
  | some content =>
    (match parseSchemaMarkers content with
     | some m =>
       m.before ++ guardStartLine ++ ('\n' :: (schemaJson ++ ('\n' :: (guardEndLine ++ m.after))))
     | none => guardStartLine ++ ('\n' :: (schemaJson ++ ('\n' :: guardEndLine))))
  | none => guardStartLine ++ ('\n' :: (schemaJson ++ ('\n' :: guardEndLine)))

/-! ## Generation-side descriptor construction (src/generate.js) -/

/-- The `type` field of a Property Descriptor: a string tag, an array
(of arbitrary JSON values, as validation only probes it with
`includes`), another JSON value, or absent. -/
inductive TypeField where
  | missing : TypeField
  | str : List Char → TypeField
  | arr : List JsValue → TypeField
  | other : TypeField

/-- `Array.prototype.includes` against a string, on a `type` array. -/
def tfIncludes (xs : List JsValue) (s : List Char) : Bool :=
  xs.any (fun x => match x with | JsValue.vstr l => l = s | _ => false)

/-- Transcription of `getJsonSchemaType` (src/generate.js). -/
def getJsonSchemaType : InferredType → TypeField
  | InferredType.boolean => TypeField.str "boolean".data
  | InferredType.integer => TypeField.str "integer".data
  | InferredType.port => TypeField.str "integer".data
  | InferredType.number => TypeField.str "number".data
  | InferredType.json =>
    TypeField.arr [JsValue.vstr "object".data, JsValue.vstr "array".data]
  | InferredType.url => TypeField.str "string".data
  | InferredType.email => TypeField.str "string".data
  | InferredType.string => TypeField.str "string".data

/-- The constraint fields `getTypeSpecificConstraints` can emit. -/
structure GenConstraints where
  minimum : Option Int := none
  maximum : Option Int := none
  format : Option (List Char) := none
  minLength : Option Int := none
deriving DecidableEq

/-- Transcription of `getTypeSpecificConstraints` (src/generate.js):
`port` gets `minimum=1, maximum=65535`; `url`/`email` get their
`format`; nonempty `string` gets `minLength=1`; `integer` with a
non-negative `parseInt` value gets `minimum=0`. -/
def getTypeSpecificConstraints (type : InferredType) (value : List Char) : GenConstraints :=
  match type with
  | InferredType.port => { minimum := some 1, maximum := some 65535 }
  | InferredType.url => { format := some "uri".data }
  | InferredType.email => { format := some "email".data }
  | InferredType.string =>
    if !value.isEmpty && 0 < value.length then { minLength := some 1 } else {}
  | InferredType.integer =>
    if !value.isEmpty then
      match jsParseInt10 value with
      | some n => if 0 ≤ n then { minimum := some 0 } else {}
      | none => {}
    else {}
  | _ => {}

/-- The parts of the fresh (non-merge) Property Descriptor that
`generateSchema` records for one env entry (src/generate.js lines
87-106), together with the example value it records for the entry. -/
structure GenDescriptor where
  typeF : TypeField
  constraints : GenConstraints
  originalType : InferredType
  isSecret : Bool
  exampleValue : List Char

/-- One iteration of `generateSchema`'s per-entry loop, without merge. -/
def generatedDescriptor (key value : List Char) : GenDescriptor :=
  { typeF := getJsonSchemaType (inferType value),
    constraints := getTypeSpecificConstraints (inferType value) value,
    originalType := inferType value,
    isSecret := isSecretKey key,
    exampleValue := generateExampleValue key value (inferType value) }

/-! ## Validation-side schema view (src/validate.js) -/

/-- The structured view of one Property Descriptor as `validateEnv`
probes it.  Numeric bound fields that are not JSON numbers are treated
as absent (the source would hand such values to zod comparisons; no
claim involves them). -/
structure PropSchema where
  typeF : TypeField := TypeField.missing
  format : Option JsValue := none
  minimum : Option JsNum := none
  maximum : Option JsNum := none
  minLength : Option JsNum := none
  metaOriginalType : Option JsValue := none
  metaIsSecret : Bool := false

/-- Strict equality of an optional JSON value against a string literal,
modelling `x === 'lit'`. -/
def optIsStr (o : Option JsValue) (s : List Char) : Bool :=
  match o with
  | some (JsValue.vstr l) => l = s
  | _ => false

/-- Read one Property Descriptor out of its parsed JSON value. -/
def extractPropSchema (v : JsValue) : PropSchema :=
  { typeF :=
      match getField v "type".data with
      | some (JsValue.vstr s) => TypeField.str s
      | some (JsValue.varr xs) => TypeField.arr xs
      | some _ => TypeField.other
      | none => TypeField.missing,
    format := getField v "format".data,
    minimum :=
      match getField v "minimum".data with
      | some (JsValue.vnum lex) => some (JsNum.fin (numLexToQ lex))
      | _ => none,
    maximum :=
      match getField v "maximum".data with
      | some (JsValue.vnum lex) => some (JsNum.fin (numLexToQ lex))
      | _ => none,
    minLength :=
      match getField v "minLength".data with
      | some (JsValue.vnum lex) => some (JsNum.fin (numLexToQ lex))
      | _ => none,
    metaOriginalType :=
      match getField v "_meta".data with
      | some m => getField m "originalType".data
      | none => none,
    metaIsSecret :=
      jsTruthyOpt (match getField v "_meta".data with
                   | some m => getField m "isSecret".data
                   | none => none) }

/-! ## `convertValue` (src/utils.js) -/

/-- A converted JavaScript value as handed to the zod check. -/
inductive JsVal where
  | vStr : List Char → JsVal
  | vNum : JsNum → JsVal
  | vBool : Bool → JsVal
  | vJson : JsValue → JsVal

/-- The switch discrimination of `convertValue` on a raw type-tag
string: the known tags, anything else taking the default (string)
branch. -/
def parseTypeTag (s : List Char) : InferredType :=
  if s = "boolean".data then InferredType.boolean
  else if s = "integer".data then InferredType.integer
  else if s = "number".data then InferredType.number
  else if s = "port".data then InferredType.port
  else if s = "json".data then InferredType.json
  else if s = "url".data then InferredType.url
  else if s = "email".data then InferredType.email
  else InferredType.string

/-- Transcription of `convertValue` (src/utils.js) for string inputs
(env values are always strings): the `Error` message is the thrown
text. -/
def convertValue (value : List Char) (type : InferredType) : Except (List Char) JsVal :=
  match type with
  | InferredType.boolean => Except.ok (JsVal.vBool (lowerL value = "true".data))
  | InferredType.integer =>
    (match jsParseInt10 value with
     | some n => Except.ok (JsVal.vNum (JsNum.fin (n : ℚ)))
     | none => Except.error ("Cannot convert \"".data ++ value ++ "\" to integer".data))
  | InferredType.number =>
    (match jsParseFloat value with
     | some n => Except.ok (JsVal.vNum n)
     | none => Except.error ("Cannot convert \"".data ++ value ++ "\" to number".data))
  | InferredType.port =>
    (match jsParseFloat value with
     | some n => Except.ok (JsVal.vNum n)
     | none => Except.error ("Cannot convert \"".data ++ value ++ "\" to number".data))
  | InferredType.json =>
    (match jsonParse value with
     | some j => Except.ok (JsVal.vJson j)
     | none => Except.error ("Cannot parse \"".data ++ value ++ "\" as JSON".data))
  | InferredType.url =>
    if jsURLParses value then Except.ok (JsVal.vStr value)
    else Except.error ("\"".data ++ value ++ "\" is not a valid URL".data)
  | InferredType.email =>
    if matchEmailRe value then Except.ok (JsVal.vStr value)
    else Except.error ("\"".data ++ value ++ "\" is not a valid email".data)
  | InferredType.string => Except.ok (JsVal.vStr value)

/-! ## Zod model and validateEnv (src/validate.js) -/

/-- Is the `type` field exactly the given string tag? -/
def tfIsStr (tf : TypeField) (s : List Char) : Bool :=
  match tf with
  | TypeField.str t => t = s
  | _ => false

/-- Is the `type` field an array whose `includes` finds the tag? -/
def tfArrIncludes (tf : TypeField) (s : List Char) : Bool :=
  match tf with
  | TypeField.arr xs => tfIncludes xs s
  | _ => false

/-- Transcription of `inferTypeFromSchema`. -/
def inferTypeFromSchema (p : PropSchema) : InferredType :=
  if optIsStr p.format "uri".data then InferredType.url
  else if optIsStr p.format "email".data then InferredType.email
  else if tfIsStr p.typeF "boolean".data then InferredType.boolean
  else if tfIsStr p.typeF "integer".data then InferredType.integer
  else if tfIsStr p.typeF "number".data then InferredType.number
  else if tfArrIncludes p.typeF "object".data then InferredType.json
  else InferredType.string

/-- The type `convertValueForValidation` converts with:
`originalType || inferTypeFromSchema(propSchema)` (a falsy stored
`originalType` falls back; a truthy non-string one hits `convertValue`'s
default branch). -/
def derivedType (p : PropSchema) : InferredType :=
  match p.metaOriginalType with
  | some v =>
    if jsTruthy v then
      (match v with
       | JsValue.vstr s => parseTypeTag s
       | _ => InferredType.string)
    else inferTypeFromSchema p
  | none => inferTypeFromSchema p

/-- Transcription of `convertValueForValidation`: a conversion failure
is caught and the original string value returned, "to let Zod handle
the error". -/
def convertValueForValidation (value : List Char) (p : PropSchema) : JsVal :=
  match convertValue value (derivedType p) with
  | Except.ok v => v
  | Except.error _ => JsVal.vStr value

/-- A format refinement on a zod string schema, with its custom
message. -/
inductive ZFmt where
  | url : List Char → ZFmt
  | email : List Char → ZFmt

/-- The zod validators `createZodSchema` can build. -/
inductive Zod where
  | zstr : Option JsNum → Option ZFmt → Zod
  | zint : List Char → Option JsNum → Option JsNum → Zod
  | znum : Option JsNum → Option JsNum → Zod
  | zbool : Zod
  | zobj : Zod
  | zarr : Zod
  | zunion : Zod

/-- Transcription of `createZodSchema` (src/validate.js). -/
def createZodSchema (p : PropSchema) (key : List Char) : Zod :=
  match p.typeF with
  | TypeField.arr xs =>
    if tfIncludes xs "object".data && tfIncludes xs "array".data then Zod.zunion
    else Zod.zstr none none
  | TypeField.str t =>
    if t = "string".data then
      Zod.zstr p.minLength
        (if optIsStr p.format "uri".data then
           some (ZFmt.url (key ++ " must be a valid URL".data))
         else if optIsStr p.format "email".data then
           some (ZFmt.email (key ++ " must be a valid email".data))
         else none)
    else if t = "integer".data then
      Zod.zint (key ++ " must be an integer".data) p.minimum p.maximum
    else if t = "number".data then Zod.znum p.minimum p.maximum
    else if t = "boolean".data then Zod.zbool
    else if t = "object".data then Zod.zobj
    else if t = "array".data then Zod.zarr
    else Zod.zstr none none
  | _ => Zod.zstr none none

/-- Local-part characters of the zod v3 email regex. -/
def zodLocalCh (c : Char) : Bool :=
  isAlphaNumCh c || c.toNat = 95 || c.toNat = 39 || c.toNat = 43 ||
  c.toNat = 45 || c.toNat = 46

/-- Characters allowed as the last local-part character. -/
def zodLocalEndCh (c : Char) : Bool :=
  isAlphaNumCh c || c.toNat = 95 || c.toNat = 43 || c.toNat = 45

/-- Local part of the zod v3 email regex: nonempty, allowed characters,
no leading dot, no doubled dot, restricted final character. -/
def zodLocalOk (cs : List Char) : Bool :=
  !cs.isEmpty && cs.all zodLocalCh &&
  (match cs with | c :: _ => c.toNat ≠ 46 | [] => false) &&
  !hasSub cs "..".data &&
  (match cs.getLast? with | some c => zodLocalEndCh c | none => false)

/-- One domain label `[A-Za-z0-9][A-Za-z0-9-]*`. -/
def zodLabelOk (cs : List Char) : Bool :=
  match cs with
  | [] => false
  | c :: rest => isAlphaNumCh c && rest.all (fun d => isAlphaNumCh d || d.toNat = 45)

/-- Split on a separator character (given by code point). -/
def splitOnCh (sep : Nat) : List Char → List (List Char)
  | [] => [[]]
  | c :: rest =>
    let r := splitOnCh sep rest
    if c.toNat = sep then [] :: r
    else
      match r with
      | h :: t => (c :: h) :: t
      | [] => [[c]]

/-- Domain of the zod v3 email regex: `([A-Za-z0-9][A-Za-z0-9-]*\.)+`
followed by an alphabetic TLD of length at least two. -/
def zodDomainOk (cs : List Char) : Bool :=
  let parts := splitOnCh 46 cs
  2 ≤ parts.length &&
  parts.dropLast.all zodLabelOk &&
  (match parts.getLast? with
   | some tld => 2 ≤ tld.length && tld.all isAlphaCh
   | none => false)

/-- Models the email regex of zod v3's `z.string().email()`. -/
def zodEmailOk (cs : List Char) : Bool :=
  (List.range cs.length).any (fun i =>
    (cs.getD i ' ').toNat = 64 && zodLocalOk (cs.take i) && zodDomainOk (cs.drop (i + 1)))

/-- The `received` type name in zod type-mismatch messages. -/
def jsValTypeName : JsVal → List Char
  | JsVal.vStr _ => "string".data
  | JsVal.vNum _ => "number".data
  | JsVal.vBool _ => "boolean".data
  | JsVal.vJson JsValue.vnull => "null".data
  | JsVal.vJson (JsValue.vbool _) => "boolean".data
  | JsVal.vJson (JsValue.vnum _) => "number".data
  | JsVal.vJson (JsValue.vstr _) => "string".data
  | JsVal.vJson (JsValue.varr _) => "array".data
  | JsVal.vJson (JsValue.vobj _) => "object".data

/-- The string format refinement checks (zod `.url()` attempts
`new URL`; `.email()` applies the email regex). -/
def zodCheckFmt : Option ZFmt → List Char → Except (List Char) Unit
  | none, _ => Except.ok ()
  | some (ZFmt.url msg), s =>
    if jsURLParses s then Except.ok () else Except.error msg
  | some (ZFmt.email msg), s =>
    if zodEmailOk s then Except.ok () else Except.error msg

/-- Numeric max bound check (zod default message, bound text elided). -/
def zodCheckMax (maxB : Option JsNum) (n : JsNum) : Except (List Char) Unit :=
  match maxB with
  | some m =>
    if jsNumLe n m then Except.ok ()
    else Except.error "Number must be less than or equal to the declared maximum".data
  | none => Except.ok ()

/-- Numeric min then max bound checks. -/
def zodCheckBounds (minB maxB : Option JsNum) (n : JsNum) : Except (List Char) Unit :=
  match minB with
  | some m =>
    if jsNumLe m n then zodCheckMax maxB n
    else Except.error "Number must be greater than or equal to the declared minimum".data
  | none => zodCheckMax maxB n

/-- Models `zodSchema.parse(value)` for the schemas `createZodSchema`
builds: `Except.error` carries `error.issues[0].message` (checks run in
the order the source adds them; a type mismatch preempts refinements;
numeric texts elide the embedded bound). -/
def zodParse (z : Zod) (v : JsVal) : Except (List Char) Unit :=
  match z with
  | Zod.zstr minLen fmt =>
    (match v with
     | JsVal.vStr s =>
       (match minLen with
        | some m =>
          if jsNumLe m (JsNum.fin (s.length : ℚ)) then zodCheckFmt fmt s
          else Except.error "String must contain at least the declared minimum of character(s)".data
        | none => zodCheckFmt fmt s)
     | other => Except.error ("Expected string, received ".data ++ jsValTypeName other))
  | Zod.zint msg minB maxB =>
    (match v with
     | JsVal.vNum n =>
       if !jsNumIsInt n then Except.error msg else zodCheckBounds minB maxB n
     | other => Except.error ("Expected number, received ".data ++ jsValTypeName other))
  | Zod.znum minB maxB =>
    (match v with
     | JsVal.vNum n => zodCheckBounds minB maxB n
     | other => Except.error ("Expected number, received ".data ++ jsValTypeName other))
  | Zod.zbool =>
    (match v with
     | JsVal.vBool _ => Except.ok ()
     | other => Except.error ("Expected boolean, received ".data ++ jsValTypeName other))
  | Zod.zobj =>
    (match v with
     | JsVal.vJson (JsValue.vobj _) => Except.ok ()
     | other => Except.error ("Expected object, received ".data ++ jsValTypeName other))
  | Zod.zarr =>
    (match v with
     | JsVal.vJson (JsValue.varr _) => Except.ok ()
     | other => Except.error ("Expected array, received ".data ++ jsValTypeName other))
  | Zod.zunion =>
    (match v with
     | JsVal.vJson (JsValue.vobj _) => Except.ok ()
     | JsVal.vJson (JsValue.varr _) => Except.ok ()
     | _ => Except.error "Invalid input".data)

/-- Transcription of `formatValidationError`: the one error line
`<KEY>=<display-value>: <message>`, the display value redacted for
secret-classified descriptors. -/
def formatValidationError (key value : List Char) (p : PropSchema) (msg : List Char) :
    List Char :=
  let displayValue := if p.metaIsSecret then "[REDACTED]".data else value
  key ++ ('=' :: (displayValue ++ (':' :: ' ' :: msg)))

/-- Transcription of `isWarningOnly`: always false. -/
def isWarningOnly (_p : PropSchema) : Bool := false

/-- The allow-list of `isSystemEnvVar`. -/
def systemVarNames : List (List Char) :=
  ["PATH".data, "HOME".data, "USER".data, "SHELL".data, "TERM".data,
   "PWD".data, "OLDPWD".data, "NODE_ENV".data, "NODE_PATH".data,
   "NODE_OPTIONS".data, "npm_package_name".data, "npm_package_version".data,
   "npm_config_".data, "CI".data, "GITHUB_".data, "TRAVIS_".data,
   "CIRCLE_".data, "JENKINS_".data]

/-- Transcription of `isSystemEnvVar`. -/
def isSystemEnvVar (key : List Char) : Bool :=
  systemVarNames.any (fun sv => key = sv || leadsWith key sv)

/-- The live environment: an association list; a `none` value models a
key present with value `undefined`. -/
abbrev EnvVars := List (List Char × Option (List Char))

/-- Property read `envVars[key]`: `none` is `undefined` (key absent, or
present with an undefined value). -/
def jsGet (env : EnvVars) (k : List Char) : Option (List Char) :=
  match env.find? (fun e => e.1 = k) with
  | some e => e.2
  | none => none

/-- `Object.keys(envVars)`. -/
def envKeys (env : EnvVars) : List (List Char) := env.map (fun e => e.1)

/-- The structured view of a parsed Schema Document as `validateEnv`
uses it. -/
structure SchemaDoc where
  properties : List (List Char × PropSchema)
  required : List (List Char)
  additionalPropertiesFalse : Bool

/-- The Validation Report. -/
structure Report where
  success : Bool
  errors : List (List Char)
  warnings : List (List Char)
  validatedCount : Nat
  totalVariables : Nat
deriving DecidableEq

/-- The body of the per-variable try/catch in `validateEnv`: `none` when
zod accepts (the `validatedCount++` path); otherwise the formatted
message, tagged `true` when it lands in `errors` and `false` when in
`warnings`. -/
def validateKey (ciMode : Bool) (key : List Char) (p : PropSchema) (value : List Char) :
    Option (Bool × List Char) :=
  match zodParse (createZodSchema p key) (convertValueForValidation value p) with
  | Except.ok _ => none
  | Except.error m =>
    let emsg := formatValidationError key value p m
    if ciMode || p.metaIsSecret then some (true, emsg)
    else if isWarningOnly p then some (false, emsg)
    else some (true, emsg)

/-- Transcription of the body of `validateEnv` after schema loading:
required-variable errors, the per-variable loop, the
unexpected-variable warnings, and the aggregated report. -/
def validateEnvCore (schema : SchemaDoc) (env : EnvVars) (ciMode : Bool) : Report :=
  let missingErrors := schema.required.filterMap (fun k =>
    if jsGet env k = none || jsGet env k = some [] then
      some ("Missing required environment variable: ".data ++ k)
    else none)
  let keyResults := schema.properties.filterMap (fun kp =>
    match jsGet env kp.1 with
    | none => none
    | some v => if v.isEmpty then none else validateKey ciMode kp.1 kp.2 v)
  let errors := missingErrors ++ (keyResults.filter (fun r => r.1)).map (fun r => r.2)
  let loopWarnings := (keyResults.filter (fun r => !r.1)).map (fun r => r.2)
  let extraWarnings :=
    if schema.additionalPropertiesFalse && ciMode then
      ((envKeys env).filter (fun k =>
        !(schema.properties.map (fun kp => kp.1)).contains k &&
        (match k with | c :: _ => c.toNat ≠ 95 | [] => true) &&
        !isSystemEnvVar k)).map (fun k =>
          "Unexpected environment variable: ".data ++ k ++
            " (not defined in schema)".data)
    else []
  { success := errors.isEmpty,
    errors := errors,
    warnings := loopWarnings ++ extraWarnings,
    validatedCount := schema.properties.countP (fun kp =>
      match jsGet env kp.1 with
      | none => false
      | some v => !v.isEmpty && (validateKey ciMode kp.1 kp.2 v).isNone),
    totalVariables := schema.properties.length }

/-- The `jsonContent` computation of `loadSchema`: strip the marker
region when both markers are found (note the `substring` offsets of the
source), else take the whole file. -/
def loadJsonContent (content : List Char) : List Char :=
  match parseSchemaMarkers content with
  | some m =>
    jsTrim (jsSubstring content (m.startIndex + startMarker.length)
      (m.endIndex - endMarker.length))
  | none => content

/-- Transcription of `loadSchema`: `none` content models a missing file
(`fs.existsSync` false); parse failure raises the invalid-JSON error
(the platform's appended `SyntaxError` text is elided). -/
def loadSchema (schemaPath : List Char) (content : Option (List Char)) :
    Except (List Char) JsValue :=
  match content with
  | none => Except.error ("Schema file not found: ".data ++ schemaPath)
  | some c =>
    (match jsonParse (loadJsonContent c) with
     | some v => Except.ok v
     | none => Except.error "Invalid JSON in schema file: unexpected token".data)

/-- Read the structured schema view out of the parsed JSON document. -/
def extractSchemaDoc (v : JsValue) : SchemaDoc :=
  { properties :=
      match getField v "properties".data with
      | some (JsValue.vobj fields) => fields.map (fun f => (f.1, extractPropSchema f.2))
      | _ => [],
    required :=
      match getField v "required".data with
      | some (JsValue.varr xs) =>
        xs.filterMap (fun x => match x with | JsValue.vstr s => some s | _ => none)
      | _ => [],
    additionalPropertiesFalse :=
      match getField v "additionalProperties".data with
      | some (JsValue.vbool false) => true
      | _ => false }

/-- `validateEnv` (src/validate.js) composed with `loadSchema`: the
thrown error, or the Validation Report. -/
def validateEnv (schemaPath : List Char) (content : Option (List Char))
    (env : EnvVars) (ciMode : Bool) : Except (List Char) Report :=
  match loadSchema schemaPath content with
  | Except.error e => Except.error e
  | Except.ok sv =>
    if !jsTruthyOpt (getField sv "properties".data) then
      Except.error "Invalid schema: missing properties".data
    else Except.ok (validateEnvCore (extractSchemaDoc sv) env ciMode)

/-! ## Helper lemmas -/

theorem dropWhile_eq_self_of {p : Char → Bool} (l : List Char)
    (h : ∀ c ∈ l, p c = false) : l.dropWhile p = l := by
  induction l with
  | nil => rfl
  | cons c cs _ =>
    rw [List.dropWhile_cons, if_neg]
    simp [h c (List.mem_cons_self c cs)]

theorem jsTrim_eq_self (s : List Char) (h : ∀ c ∈ s, isWsCh c = false) :
    jsTrim s = s := by
  unfold jsTrim
  rw [dropWhile_eq_self_of s h,
    dropWhile_eq_self_of s.reverse (fun c hc => h c (List.mem_reverse.mp hc)),
    List.reverse_reverse]

theorem dropWhile_nil_of_all {p : Char → Bool} (l : List Char) (h : l.all p = true) :
    l.dropWhile p = [] := by
  induction l with
  | nil => rfl
  | cons c cs ih =>
    simp only [List.all_cons, Bool.and_eq_true] at h
    rw [List.dropWhile_cons, if_pos h.1]
    exact ih h.2

theorem leadsWith_append_of (a b n : List Char) (h : leadsWith a n = true) :
    leadsWith (a ++ b) n = true := by
  induction n generalizing a with
  | nil =>
    cases a ++ b with
    | nil => rfl
    | cons c cs => rfl
  | cons x xs ih =>
    cases a with
    | nil => simp [leadsWith] at h
    | cons y ys =>
      simp only [List.cons_append, leadsWith, Bool.and_eq_true] at h ⊢
      exact ⟨h.1, ih ys h.2⟩

theorem hasSub_of_leadsWith (cs p : List Char) (h : leadsWith cs p = true) :
    hasSub cs p = true := by
  unfold hasSub
  rw [if_pos h]

/-! ## C1 — merge-marker round trip -/

/-- The schema JSON stand-in used to evaluate the merge write path. -/
def sampleSchemaJson : List Char := "\x7b\"properties\": \x7b\x7d\x7d".data

/-- C1: the claim fails on the code.  The merge-mode write path of
`generateSchema` emits `// dotenv-guard:start` / `// dotenv-guard:end`
delimiter lines, while `parseSchemaMarkers` (used both by merge reads
and by `loadSchema`) searches for `// dotenv-shield:start` /
`// dotenv-shield:end`.  Evaluated at the failing input — a merge-mode
run over a fresh schema file — the produced content starts with the
guard marker line, yet the marker parser finds no markers in it, and a
subsequent schema read fails with the invalid-JSON error instead of
locating the markers and parsing the wrapped region. -/
theorem merge_marker_roundtrip_bug :
    guardStartLine ≠ startMarker ∧
    leadsWith (mergeWriteContent none sampleSchemaJson) guardStartLine = true ∧
    parseSchemaMarkers (mergeWriteContent none sampleSchemaJson) = none ∧
    loadSchema ".env.schema.json".data (some (mergeWriteContent none sampleSchemaJson)) =
      Except.error "Invalid JSON in schema file: unexpected token".data ∧
    hasSub "Invalid JSON in schema file: unexpected token".data
      "Invalid JSON in schema file".data = true := by
  refine ⟨by decide, by decide, by decide, rfl, by decide⟩

/-! ## C2 — port constraint derivation -/

theorem not_ws_of_digit (c : Char) (h : isDigitCh c = true) : isWsCh c = false := by
  simp only [isDigitCh, Bool.and_eq_true, decide_eq_true_eq] at h
  simp only [isWsCh, Bool.or_eq_false_iff, decide_eq_false_iff_not]
  omega

theorem matchIntRe_of_digits (s : List Char) (h : matchDigits1 s = true) :
    matchIntRe s = true := by
  unfold matchIntRe
  cases s with
  | nil => simp [matchDigits1] at h
  | cons c cs =>
    have hc : isDigitCh c = true := by
      simp only [matchDigits1, List.all_cons, Bool.and_eq_true] at h
      exact h.2.1
    have h45 : ¬(c.toNat = 45) := by
      simp only [isDigitCh, Bool.and_eq_true, decide_eq_true_eq] at hc
      omega
    simpa [dropMinus, h45] using h

theorem inferType_ne_port (s : List Char) : inferType s ≠ InferredType.port := by
  unfold inferType
  split_ifs with h1 h2 h3 h4 h5 h6 h7 h8
  · exact fun h => InferredType.noConfusion h
  · exact fun h => InferredType.noConfusion h
  · exact fun h => InferredType.noConfusion h
  · exact fun h => InferredType.noConfusion h
  · exact fun h => InferredType.noConfusion h
  · exact fun h => InferredType.noConfusion h
  · exact fun h => InferredType.noConfusion h
  · -- the port branch is unreachable: an all-digit value already
    -- matched the integer regex on its trimmed (identical) form
    exfalso
    have hd : matchDigits1 s = true := by
      simp only [Bool.and_eq_true] at h8
      exact h8.1.1
    have hall : ∀ c ∈ s, isDigitCh c = true := by
      simp only [matchDigits1, Bool.and_eq_true, List.all_eq_true] at hd
      exact hd.2
    have htrim : jsTrim s = s :=
      jsTrim_eq_self s (fun c hc => not_ws_of_digit c (hall c hc))
    exact h3 (by rw [htrim]; exact matchIntRe_of_digits s hd)
  · exact fun h => InferredType.noConfusion h

/-- C2: the claim fails on the code, and the code contradicts its own
README (which documents `PORT=3000` as `minimum: 1, maximum: 65535`).
An all-digit in-range value such as `"3000"` is inferred `integer` (the
integer regex precedes the port branch), so `getTypeSpecificConstraints`
takes the integer branch and emits `minimum=0`; the port branch that
would emit `minimum=1, maximum=65535` is unreachable from generation
because `inferType` never returns `port` for any input. -/
theorem port_constraints_bug :
    inferType "3000".data = InferredType.integer ∧
    (generatedDescriptor "PORT".data "3000".data).constraints = { minimum := some 0 } ∧
    (generatedDescriptor "PORT".data "3000".data).constraints ≠
      { minimum := some 1, maximum := some 65535 } ∧
    getTypeSpecificConstraints InferredType.port "3000".data =
      { minimum := some 1, maximum := some 65535 } ∧
    (∀ s : List Char, decide (inferType s = InferredType.port) = false) :=
  ⟨by decide, by decide, by decide, by decide,
   fun s => decide_eq_false (inferType_ne_port s)⟩

/-! ## C3 — secret redaction in the example document -/

/-- C3 counterexample: for the secret-flagged key `PASSWORD` with raw
value `true` (inferred `boolean`), the per-entry generation pipeline
records the example value `true` — exactly the original raw value
verbatim, refuting "never contains the original raw value". -/
theorem secret_redaction_cex :
    isSecretKey "PASSWORD".data = true ∧
    inferType "true".data = InferredType.boolean ∧
    (generatedDescriptor "PASSWORD".data "true".data).exampleValue = "true".data := by
  decide

/-- C3 amended: for every secret-flagged key the example value is the
fixed type-indexed placeholder of the secret branch, independent of the
raw value; hence it differs from the raw value except in the corner
case where the raw value already equals that placeholder (as with
`PASSWORD=true`). -/
theorem secret_redaction_amended (key v : List Char) (t : InferredType)
    (h : isSecretKey key = true) :
    generateExampleValue key v t = secretPlaceholder t ∧
    (v ≠ secretPlaceholder t → generateExampleValue key v t ≠ v) := by
  have he : generateExampleValue key v t = secretPlaceholder t := by
    unfold generateExampleValue
    rw [if_pos h]
  refine ⟨he, fun hne hEq => hne ?_⟩
  rw [← hEq, he]

/-- Witness for the amended C3 at a concrete secret key and value. -/
theorem secret_redaction_amended_witness :
    generateExampleValue "API_TOKEN".data "hunter2".data InferredType.string =
      secretPlaceholder InferredType.string ∧
    decide (generateExampleValue "API_TOKEN".data "hunter2".data InferredType.string =
      "hunter2".data) = false :=
  ⟨(secret_redaction_amended "API_TOKEN".data "hunter2".data InferredType.string
      (by decide)).1,
   decide_eq_false
     ((secret_redaction_amended "API_TOKEN".data "hunter2".data InferredType.string
        (by decide)).2 (by decide))⟩

/-! ## C4 — type-inference precedence -/

theorem not_ws_of_dmd (c : Char)
    (h : isDigitCh c = true ∨ c.toNat = 45 ∨ c.toNat = 46) : isWsCh c = false := by
  simp only [isDigitCh, Bool.and_eq_true, decide_eq_true_eq] at h
  simp only [isWsCh, Bool.or_eq_false_iff, decide_eq_false_iff_not]
  omega

theorem lowerCh_eq_self_of_dmd (c : Char)
    (h : isDigitCh c = true ∨ c.toNat = 45 ∨ c.toNat = 46) : lowerCh c = c := by
  simp only [isDigitCh, Bool.and_eq_true, decide_eq_true_eq] at h
  unfold lowerCh
  rw [if_neg]
  simp only [Bool.and_eq_true, decide_eq_true_eq, not_and]
  omega

theorem intRe_chars (s : List Char) (h : matchIntRe s = true) :
    ∀ c ∈ s, isDigitCh c = true ∨ c.toNat = 45 := by
  intro c hc
  cases s with
  | nil => simp at hc
  | cons c0 cs =>
    by_cases h45 : c0.toNat = 45
    · simp only [matchIntRe, dropMinus, if_pos h45, matchDigits1,
        Bool.and_eq_true, List.all_eq_true] at h
      rcases List.mem_cons.mp hc with rfl | hmem
      · exact Or.inr h45
      · exact Or.inl (h.2 c hmem)
    · simp only [matchIntRe, dropMinus, if_neg h45, matchDigits1,
        Bool.and_eq_true, List.all_eq_true] at h
      exact Or.inl (h.2 c hc)

theorem intRe_head (s : List Char) (h : matchIntRe s = true) :
    ∃ c0 cs, s = c0 :: cs ∧ (isDigitCh c0 = true ∨ c0.toNat = 45) := by
  cases s with
  | nil => simp [matchIntRe, dropMinus, matchDigits1] at h
  | cons c0 cs =>
    exact ⟨c0, cs, rfl, intRe_chars _ h c0 (List.mem_cons_self c0 cs)⟩

theorem matchBoolRe_false_of_head (c0 : Char) (cs : List Char)
    (h : isDigitCh c0 = true ∨ c0.toNat = 45) :
    matchBoolRe (c0 :: cs) = false := by
  have hlow : lowerCh c0 = c0 :=
    lowerCh_eq_self_of_dmd c0 (h.imp id Or.inl)
  have hne : c0.toNat ≠ 116 ∧ c0.toNat ≠ 102 := by
    rcases h with h | h
    · simp only [isDigitCh, Bool.and_eq_true, decide_eq_true_eq] at h
      omega
    · omega
  unfold matchBoolRe lowerL
  simp only [List.map_cons, hlow]
  rw [Bool.or_eq_false_iff]
  constructor
  · rw [decide_eq_false_iff_not]
    intro heq
    simp only [List.cons.injEq] at heq
    exact hne.1 (by rw [heq.1]; rfl)
  · rw [decide_eq_false_iff_not]
    intro heq
    simp only [List.cons.injEq] at heq
    exact hne.2 (by rw [heq.1]; rfl)

theorem inferType_int (s : List Char) (h : matchIntRe s = true) :
    inferType s = InferredType.integer := by
  obtain ⟨c0, cs, rfl, hc0⟩ := intRe_head s h
  have hch := intRe_chars _ h
  have htrim : jsTrim (c0 :: cs) = c0 :: cs :=
    jsTrim_eq_self _ (fun c hc => not_ws_of_dmd c ((hch c hc).imp id Or.inl))
  have hbool : matchBoolRe (c0 :: cs) = false := matchBoolRe_false_of_head c0 cs hc0
  unfold inferType
  rw [htrim]
  simp [hbool, h]

theorem numRe_struct (s : List Char) (h : matchNumRe s = true) :
    ¬((dropMinus s).takeWhile isDigitCh).isEmpty = true ∧
      ∃ cdot r2, (dropMinus s).dropWhile isDigitCh = cdot :: r2 ∧
        cdot.toNat = 46 ∧ matchDigits1 r2 = true := by
  simp only [matchNumRe] at h
  cases hrest : (dropMinus s).dropWhile isDigitCh with
  | nil => rw [hrest] at h; simp at h
  | cons c r2 =>
    rw [hrest] at h
    simp only [Bool.and_eq_true, Bool.not_eq_true', decide_eq_true_eq] at h
    exact ⟨by simp [h.1], c, r2, rfl, h.2.1, h.2.2⟩

theorem numRe_not_int (s : List Char) (h : matchNumRe s = true) :
    matchIntRe s = false := by
  obtain ⟨_, cdot, r2, hdrop, _, _⟩ := numRe_struct s h
  by_contra hcon
  simp only [Bool.not_eq_false] at hcon
  unfold matchIntRe at hcon
  simp only [matchDigits1, Bool.and_eq_true] at hcon
  have : (dropMinus s).dropWhile isDigitCh = [] :=
    dropWhile_nil_of_all _ hcon.2
  rw [hdrop] at this
  exact List.noConfusion this

theorem numRe_head (s : List Char) (h : matchNumRe s = true) :
    ∃ c0 cs, s = c0 :: cs ∧ (isDigitCh c0 = true ∨ c0.toNat = 45) := by
  obtain ⟨htake, _⟩ := numRe_struct s h
  cases s with
  | nil => simp [dropMinus] at htake
  | cons c0 cs =>
    refine ⟨c0, cs, rfl, ?_⟩
    by_cases h45 : c0.toNat = 45
    · exact Or.inr h45
    · left
      simp only [dropMinus, if_neg h45] at htake
      by_contra hd
      simp only [Bool.not_eq_true] at hd
      rw [List.takeWhile_cons, if_neg (by simp [hd])] at htake
      exact htake rfl

theorem numRe_chars (s : List Char) (h : matchNumRe s = true) :
    ∀ c ∈ s, isDigitCh c = true ∨ c.toNat = 45 ∨ c.toNat = 46 := by
  obtain ⟨_, cdot, r2, hdrop, hdot, hr2⟩ := numRe_struct s h
  have hdm : ∀ c ∈ dropMinus s, isDigitCh c = true ∨ c.toNat = 45 ∨ c.toNat = 46 := by
    intro c hc
    rw [← List.takeWhile_append_dropWhile (p := isDigitCh) (l := dropMinus s)] at hc
    rcases List.mem_append.mp hc with htk | hdr
    · exact Or.inl (List.mem_takeWhile_imp htk)
    · rw [hdrop] at hdr
      rcases List.mem_cons.mp hdr with rfl | hmem
      · exact Or.inr (Or.inr hdot)
      · simp only [matchDigits1, Bool.and_eq_true, List.all_eq_true] at hr2
        exact Or.inl (hr2.2 c hmem)
  intro c hc
  cases s with
  | nil => simp at hc
  | cons c0 cs =>
    by_cases h45 : c0.toNat = 45
    · rcases List.mem_cons.mp hc with rfl | hmem
      · exact Or.inr (Or.inl h45)
      · exact hdm c (by simp only [dropMinus, if_pos h45]; exact hmem)
    · exact hdm c (by simp only [dropMinus, if_neg h45]; exact hc)

theorem inferType_num (s : List Char) (h : matchNumRe s = true) :
    inferType s = InferredType.number := by
  obtain ⟨c0, cs, rfl, hc0⟩ := numRe_head s h
  have hch := numRe_chars _ h
  have htrim : jsTrim (c0 :: cs) = c0 :: cs :=
    jsTrim_eq_self _ (fun c hc => not_ws_of_dmd c (hch c hc))
  have hbool : matchBoolRe (c0 :: cs) = false := matchBoolRe_false_of_head c0 cs hc0
  have hint : matchIntRe (c0 :: cs) = false := numRe_not_int _ h
  unfold inferType
  rw [htrim]
  simp [hbool, hint, h]

/-- C4: confirmed.  Every string matching the integer regex `^-?\d+$`
infers `integer` (never reaching the later port branch); every string
matching `^-?\d+\.\d+$` infers `number`; and the three boolean literal
spellings infer `boolean`. -/
theorem infer_precedence :
    (∀ s : List Char, matchIntRe s = true → inferType s = InferredType.integer) ∧
    (∀ s : List Char, matchNumRe s = true → inferType s = InferredType.number) ∧
    inferType "true".data = InferredType.boolean ∧
    inferType "TRUE".data = InferredType.boolean ∧
    inferType "False".data = InferredType.boolean :=
  ⟨inferType_int, inferType_num, by decide, by decide, by decide⟩

/-- Witness for C4 at concrete regex-matching inputs. -/
theorem infer_precedence_witness :
    (matchIntRe "3000".data = true ∧ inferType "3000".data = InferredType.integer) ∧
    (matchNumRe "-456.78".data = true ∧ inferType "-456.78".data = InferredType.number) :=
  ⟨⟨by decide, infer_precedence.1 "3000".data (by decide)⟩,
   ⟨by decide, infer_precedence.2.1 "-456.78".data (by decide)⟩⟩

/-! ## C5 — missing required variables -/

/-- C5: confirmed.  For every schema, environment and mode: when `K` is
in `required` and is absent, present-but-undefined, or the empty string,
the report contains the exact missing-variable error, `success` is
false, and the run still completes over the whole property set (the
report's `totalVariables` covers every property). -/
theorem missing_required (schema : SchemaDoc) (env : EnvVars) (ciMode : Bool)
    (K : List Char) (hK : K ∈ schema.required)
    (hv : jsGet env K = none ∨ jsGet env K = some []) :
    (validateEnvCore schema env ciMode).success = false ∧
    ("Missing required environment variable: ".data ++ K) ∈
      (validateEnvCore schema env ciMode).errors ∧
    (validateEnvCore schema env ciMode).totalVariables = schema.properties.length := by
  have hcond : (jsGet env K = none || jsGet env K = some []) = true := by
    rcases hv with hv | hv <;> simp [hv]
  have hmem : ("Missing required environment variable: ".data ++ K) ∈
      schema.required.filterMap (fun k =>
        if jsGet env k = none || jsGet env k = some [] then
          some ("Missing required environment variable: ".data ++ k)
        else none) := by
    apply List.mem_filterMap.mpr
    exact ⟨K, hK, by rw [if_pos hcond]⟩
  unfold validateEnvCore
  refine ⟨?_, ?_, rfl⟩
  · rw [List.isEmpty_eq_false]
    exact List.ne_nil_of_mem (List.mem_append.mpr (Or.inl hmem))
  · exact List.mem_append.mpr (Or.inl hmem)

/-- Witness for C5 at a concrete one-property schema and empty
environment. -/
theorem missing_required_witness :
    (validateEnvCore
        ⟨[("PORT".data, { typeF := TypeField.str "integer".data })],
          ["PORT".data], false⟩ [] false).success = false ∧
    ("Missing required environment variable: ".data ++ "PORT".data) ∈
      (validateEnvCore
        ⟨[("PORT".data, { typeF := TypeField.str "integer".data })],
          ["PORT".data], false⟩ [] false).errors ∧
    (validateEnvCore
        ⟨[("PORT".data, { typeF := TypeField.str "integer".data })],
          ["PORT".data], false⟩ [] false).totalVariables =
      [("PORT".data, ({ typeF := TypeField.str "integer".data } : PropSchema))].length :=
  missing_required _ _ false "PORT".data (List.mem_cons_self _ _) (Or.inl rfl)

/-! ## C6 — fatal validation errors -/

/-- C6: confirmed.  (a) An absent schema file fails with an error
containing "Schema file not found"; (b) schema content whose (marker-
stripped) text is not valid JSON fails with an error containing
"Invalid JSON in schema file"; (c) a parsed schema without a truthy
`properties` field fails with the missing-properties error.  In each
case `validateEnv` returns `Except.error` — no Validation Report. -/
theorem fatal_schema_errors :
    (∀ (path : List Char) (env : EnvVars) (ci : Bool),
      ∃ e, validateEnv path none env ci = Except.error e ∧
        hasSub e "Schema file not found".data = true) ∧
    (∀ (path c : List Char) (env : EnvVars) (ci : Bool),
      (jsonParse (loadJsonContent c)).isSome = false →
      ∃ e, validateEnv path (some c) env ci = Except.error e ∧
        hasSub e "Invalid JSON in schema file".data = true) ∧
    (∀ (path c : List Char) (env : EnvVars) (ci : Bool) (sv : JsValue),
      jsonParse (loadJsonContent c) = some sv →
      jsTruthyOpt (getField sv "properties".data) = false →
      validateEnv path (some c) env ci =
        Except.error "Invalid schema: missing properties".data) := by
  refine ⟨?_, ?_, ?_⟩
  · intro path env ci
    refine ⟨"Schema file not found: ".data ++ path, rfl, ?_⟩
    exact hasSub_of_leadsWith _ _
      (leadsWith_append_of "Schema file not found: ".data path
        "Schema file not found".data (by decide))
  · intro path c env ci h
    cases hjp : jsonParse (loadJsonContent c) with
    | some v => rw [hjp] at h; simp at h
    | none =>
      refine ⟨"Invalid JSON in schema file: unexpected token".data, ?_, by decide⟩
      simp [validateEnv, loadSchema, hjp]
  · intro path c env ci sv hp hprop
    simp [validateEnv, loadSchema, hp, hprop]

/-- Witness for C6: the three fatal paths at concrete inputs (missing
file; the non-JSON content `not json`; the empty object, which has no
`properties` field) — the missing-properties case is obtained by
applying the theorem, the other two error values are checked
concretely. -/
theorem fatal_schema_errors_witness :
    validateEnv "schema.json".data (some "\x7b\x7d".data) [] false =
      Except.error "Invalid schema: missing properties".data ∧
    validateEnv "schema.json".data none [] false =
      Except.error ("Schema file not found: ".data ++ "schema.json".data) ∧
    hasSub ("Schema file not found: ".data ++ "schema.json".data)
      "Schema file not found".data = true ∧
    validateEnv "schema.json".data (some "not json".data) [] false =
      Except.error "Invalid JSON in schema file: unexpected token".data ∧
    hasSub "Invalid JSON in schema file: unexpected token".data
      "Invalid JSON in schema file".data = true :=
  ⟨fatal_schema_errors.2.2 "schema.json".data "\x7b\x7d".data [] false
     (JsValue.vobj []) rfl (by decide),
   rfl, by decide, rfl, by decide⟩

/-! ## C7 — secret classifier -/

/-- The classifier characterization exactly as the claim words it
(spec-side definition, for comparison with the source's
`isSecretKey`): case-insensitively contains one of eight substrings, or
ends with `key`, `_key`, `_secret` or `_token`, or begins with
`api_key`. -/
def specSecretClaim (key : List Char) : Bool :=
  let k := lowerL key
  hasSub k "password".data || hasSub k "secret".data || hasSub k "token".data ||
  hasSub k "auth".data || hasSub k "private".data || hasSub k "credential".data ||
  hasSub k "jwt".data || hasSub k "bearer".data ||
  trailsWith k "key".data || trailsWith k "_key".data ||
  trailsWith k "_secret".data || trailsWith k "_token".data ||
  leadsWith k "api_key".data

/-- C7 counterexample: the claim's "in particular" instance is false on
the code — the `key` patterns of `isSecretKey` are suffix-anchored, and
`PUBLIC_KEY_ID` neither ends with `key` nor matches any other pattern,
so it is not flagged (the general characterization itself would give
false here too). -/
theorem secret_classifier_cex :
    isSecretKey "PUBLIC_KEY_ID".data = false ∧
    specSecretClaim "PUBLIC_KEY_ID".data = false := by
  decide

/-- C7 amended: the characterization of the claim holds for every key
(the source's thirteen patterns agree with it), but `PUBLIC_KEY_ID`
evaluates to false, not true. -/
theorem secret_classifier_amended :
    (∀ key : List Char, isSecretKey key = specSecretClaim key) ∧
    isSecretKey "PUBLIC_KEY_ID".data = false := by
  refine ⟨fun key => ?_, by decide⟩
  unfold isSecretKey specSecretClaim
  rw [Bool.eq_iff_iff]
  simp only [Bool.or_eq_true]
  tauto

/-- Witness for the amended C7 at a concrete key. -/
theorem secret_classifier_amended_witness :
    isSecretKey "API_KEY".data = specSecretClaim "API_KEY".data ∧
    isSecretKey "PUBLIC_KEY_ID".data = false :=
  ⟨secret_classifier_amended.1 "API_KEY".data, secret_classifier_amended.2⟩

/-! ## C8 — non-secret values in the example document -/

/-- C8 counterexample: `APP_NAME` is not secret-classified and its
21-character value infers `string`, yet the generated example value is
not the original value — the default branch truncates values longer
than 20 characters to their first 20 plus `...`. -/
theorem nonsecret_example_cex :
    isSecretKey "APP_NAME".data = false ∧
    inferType "abcdefghijklmnopqrstu".data = InferredType.string ∧
    generateExampleValue "APP_NAME".data "abcdefghijklmnopqrstu".data
        (inferType "abcdefghijklmnopqrstu".data) ≠ "abcdefghijklmnopqrstu".data ∧
    generateExampleValue "APP_NAME".data "abcdefghijklmnopqrstu".data
        (inferType "abcdefghijklmnopqrstu".data) = "abcdefghijklmnopqrst...".data := by
  decide

/-- C8 amended: for every key not flagged secret, the example value is
the raw value unchanged for the integer, number, port, url and email
types; boolean values are rendered as the lower-case literal (`true`
exactly when the value lower-cases to `true`); and string-typed
(default-branch) values are unchanged exactly when their length is at
most 20, longer ones being truncated to their first 20 characters plus
`...` (JSON-typed values may be re-serialized, as the original claim
already excepted). -/
theorem nonsecret_example_amended (key v : List Char) (t : InferredType)
    (h : isSecretKey key = false) :
    ((t = InferredType.integer ∨ t = InferredType.number ∨ t = InferredType.port ∨
      t = InferredType.url ∨ t = InferredType.email) →
      generateExampleValue key v t = v) ∧
    (t = InferredType.boolean →
      generateExampleValue key v t =
        (if lowerL v = "true".data then "true".data else "false".data)) ∧
    (t = InferredType.string →
      (v.length ≤ 20 → generateExampleValue key v t = v) ∧
      (20 < v.length →
        generateExampleValue key v t = v.take 20 ++ "...".data)) := by
  unfold generateExampleValue
  rw [if_neg (by simp [h])]
  refine ⟨?_, ?_, ?_⟩
  · rintro (rfl | rfl | rfl | rfl | rfl)
    · rfl
    · rfl
    · by_cases hv : v = "3000".data
      · simp [hv]
      · simp [hv]
    · rfl
    · rfl
  · rintro rfl
    rfl
  · rintro rfl
    constructor
    · intro hlen
      show (if 20 < v.length then v.take 20 ++ "...".data else v) = v
      rw [if_neg (by omega)]
    · intro hlen
      show (if 20 < v.length then v.take 20 ++ "...".data else v) =
        v.take 20 ++ "...".data
      rw [if_pos hlen]

/-- Witness for the amended C8 at concrete non-secret keys, one per
branch of the characterization. -/
theorem nonsecret_example_amended_witness :
    generateExampleValue "MAX_CONNECTIONS".data "10".data InferredType.integer =
      "10".data ∧
    generateExampleValue "DEBUG".data "TRUE".data InferredType.boolean =
      (if lowerL "TRUE".data = "true".data then "true".data else "false".data) ∧
    generateExampleValue "APP_NAME".data "ab".data InferredType.string = "ab".data :=
  ⟨(nonsecret_example_amended "MAX_CONNECTIONS".data "10".data InferredType.integer
      (by decide)).1 (Or.inl rfl),
   (nonsecret_example_amended "DEBUG".data "TRUE".data InferredType.boolean
      (by decide)).2.1 rfl,
   ((nonsecret_example_amended "APP_NAME".data "ab".data InferredType.string
      (by decide)).2.2 rfl).1 (by decide)⟩

/-! ## C10 — integer conversion by leading-prefix parse -/

/-- The claim's wording of the `parseInt` domain (spec-side definition):
the whitespace-skipped form begins with an optional sign followed by at
least one digit. -/
def hasLeadingIntPrefix (s : List Char) : Bool :=
  let t := s.dropWhile isWsCh
  let t2 :=
    match t with
    | c :: r => if c.toNat = 45 || c.toNat = 43 then r else t
    | [] => []
  !(t2.takeWhile isDigitCh).isEmpty

theorem jsParseInt10_isSome_iff (s : List Char) :
    (jsParseInt10 s).isSome = hasLeadingIntPrefix s := by
  unfold jsParseInt10 hasLeadingIntPrefix
  cases ht : s.dropWhile isWsCh with
  | nil => rfl
  | cons c r =>
    by_cases h45 : c.toNat = 45
    · cases htk : r.takeWhile isDigitCh with
      | nil => simp [h45, htk]
      | cons d ds => simp [h45, htk]
    · by_cases h43 : c.toNat = 43
      · cases htk : r.takeWhile isDigitCh with
        | nil => simp [h45, h43, htk]
        | cons d ds => simp [h45, h43, htk]
      · cases htk : (c :: r).takeWhile isDigitCh with
        | nil => simp [h45, h43, htk]
        | cons d ds => simp [h45, h43, htk]

/-- The concrete integer-typed descriptor used to exercise validation
with a fractional live value. -/
def intPortProp : PropSchema :=
  { typeF := TypeField.str "integer".data,
    minimum := some (JsNum.fin 0),
    metaOriginalType := some (JsValue.vstr "integer".data) }

/-- C10: confirmed.  `convertValue` for the integer type succeeds with
the `parseInt`-style leading integer prefix exactly when one exists
(throwing only on `NaN`), discarding the remainder: `"3.7"` converts to
3 and `"12abc"` to 12; consequently the live value `"3.7"` validates
successfully against an integer-typed descriptor, with no error and
`validatedCount` 1. -/
theorem integer_prefix_conversion :
    (∀ s : List Char, (jsParseInt10 s).isSome = hasLeadingIntPrefix s) ∧
    (∀ (s : List Char) (n : Int), jsParseInt10 s = some n →
      convertValue s InferredType.integer =
        Except.ok (JsVal.vNum (JsNum.fin (n : ℚ)))) ∧
    (∀ s : List Char, jsParseInt10 s = none →
      convertValue s InferredType.integer =
        Except.error ("Cannot convert \"".data ++ s ++ "\" to integer".data)) ∧
    convertValue "3.7".data InferredType.integer =
      Except.ok (JsVal.vNum (JsNum.fin 3)) ∧
    convertValue "12abc".data InferredType.integer =
      Except.ok (JsVal.vNum (JsNum.fin 12)) ∧
    ((validateEnvCore ⟨[("PORT".data, intPortProp)], [], false⟩
        [("PORT".data, some "3.7".data)] false).success = true ∧
      (validateEnvCore ⟨[("PORT".data, intPortProp)], [], false⟩
        [("PORT".data, some "3.7".data)] false).errors = [] ∧
      (validateEnvCore ⟨[("PORT".data, intPortProp)], [], false⟩
        [("PORT".data, some "3.7".data)] false).validatedCount = 1) := by
  refine ⟨jsParseInt10_isSome_iff, ?_, ?_, rfl, rfl, by decide, by decide, by decide⟩
  · intro s n h
    unfold convertValue
    rw [h]
  · intro s h
    unfold convertValue
    rw [h]

/-- Witness for C10 at concrete inputs with a prefix and without one. -/
theorem integer_prefix_conversion_witness :
    convertValue "42".data InferredType.integer =
      Except.ok (JsVal.vNum (JsNum.fin ((42 : Int) : ℚ))) ∧
    convertValue "xyz".data InferredType.integer =
      Except.error ("Cannot convert \"".data ++ "xyz".data ++ "\" to integer".data) :=
  ⟨integer_prefix_conversion.2.1 "42".data 42 (by decide),
   integer_prefix_conversion.2.2.1 "xyz".data (by decide)⟩

/-! ## C9 — conversion failures never escape the validator -/

theorem seg_of_zodLocalCh (c : Char) (h : zodLocalCh c = true) :
    (!isWsCh c && !(c.toNat = 64 : Bool)) = true := by
  simp only [zodLocalCh, isAlphaNumCh, isAlphaCh, isDigitCh, Bool.or_eq_true,
    Bool.and_eq_true, decide_eq_true_eq] at h
  simp only [isWsCh, Bool.and_eq_true, Bool.not_eq_true', Bool.or_eq_false_iff,
    decide_eq_false_iff_not]
  omega

theorem seg_of_labelCh (c : Char) (h : isAlphaNumCh c = true ∨ c.toNat = 45) :
    (!isWsCh c && !(c.toNat = 64 : Bool)) = true := by
  simp only [isAlphaNumCh, isAlphaCh, isDigitCh, Bool.or_eq_true,
    Bool.and_eq_true, decide_eq_true_eq] at h
  simp only [isWsCh, Bool.and_eq_true, Bool.not_eq_true', Bool.or_eq_false_iff,
    decide_eq_false_iff_not]
  omega

theorem seg_of_dot (c : Char) (h : c.toNat = 46) :
    (!isWsCh c && !(c.toNat = 64 : Bool)) = true := by
  simp only [isWsCh, Bool.and_eq_true, Bool.not_eq_true', Bool.or_eq_false_iff,
    decide_eq_false_iff_not]
  omega

theorem emailSegOk_of_all (cs : List Char) (hne : cs ≠ [])
    (h : ∀ c ∈ cs, (!isWsCh c && !(c.toNat = 64 : Bool)) = true) :
    emailSegOk cs = true := by
  unfold emailSegOk
  simp only [Bool.and_eq_true, List.all_eq_true]
  refine ⟨by simp [hne], fun c hc => ?_⟩
  have := h c hc
  simp only [Bool.and_eq_true, Bool.not_eq_true', decide_eq_false_iff_not] at this
  simp [this.1, this.2]

theorem splitOnCh_ne_nil (sep : Nat) (l : List Char) : splitOnCh sep l ≠ [] := by
  cases l with
  | nil => simp [splitOnCh]
  | cons c rest =>
    unfold splitOnCh
    by_cases hs : c.toNat = sep
    · simp [hs]
    · simp only [if_neg hs]
      cases hr : splitOnCh sep rest with
      | nil => simp
      | cons h t => simp

theorem splitOnCh_first (sep : Nat) (l : List Char) (p : List Char)
    (ps : List (List Char)) (hps : ps ≠ [])
    (h : splitOnCh sep l = p :: ps) :
    ∃ cdot l', l = p ++ cdot :: l' ∧ cdot.toNat = sep ∧ splitOnCh sep l' = ps := by
  induction l generalizing p with
  | nil =>
    simp only [splitOnCh] at h
    injection h with h1 h2
    exact absurd h2.symm hps
  | cons c rest ih =>
    unfold splitOnCh at h
    by_cases hs : c.toNat = sep
    · rw [if_pos hs] at h
      injection h with h1 h2
      exact ⟨c, rest, by rw [← h1]; rfl, hs, h2⟩
    · rw [if_neg hs] at h
      cases hr : splitOnCh sep rest with
      | nil => exact absurd hr (splitOnCh_ne_nil sep rest)
      | cons h0 t =>
        rw [hr] at h
        injection h with hp ht
        subst ht
        obtain ⟨cdot, l', hrest, hsep, hsplit⟩ := ih h0 hr
        exact ⟨cdot, l', by rw [← hp, hrest]; rfl, hsep, hsplit⟩

theorem splitOnCh_chars (sep : Nat) (l : List Char) :
    ∀ c ∈ l, c.toNat = sep ∨ ∃ part ∈ splitOnCh sep l, c ∈ part := by
  induction l with
  | nil => simp
  | cons c0 rest ih =>
    intro c hc
    unfold splitOnCh
    by_cases hs : c0.toNat = sep
    · rcases List.mem_cons.mp hc with rfl | hmem
      · exact Or.inl hs
      · rcases ih c hmem with hsep | ⟨part, hpmem, hcmem⟩
        · exact Or.inl hsep
        · exact Or.inr ⟨part, by rw [if_pos hs]; exact List.mem_cons_of_mem _ hpmem, hcmem⟩
    · rw [if_neg hs]
      cases hr : splitOnCh sep rest with
      | nil => exact absurd hr (splitOnCh_ne_nil sep rest)
      | cons h0 t =>
        rcases List.mem_cons.mp hc with rfl | hmem
        · exact Or.inr ⟨c :: h0, List.mem_cons_self _ _, List.mem_cons_self _ _⟩
        · rcases ih c hmem with hsep | ⟨part, hpmem, hcmem⟩
          · exact Or.inl hsep
          · rw [hr] at hpmem
            rcases List.mem_cons.mp hpmem with rfl | hpt
            · exact Or.inr ⟨c0 :: part, List.mem_cons_self _ _, List.mem_cons_of_mem _ hcmem⟩
            · exact Or.inr ⟨part, List.mem_cons_of_mem _ hpt, hcmem⟩

theorem labelOk_chars (part : List Char) (h : zodLabelOk part = true) :
    ∀ c ∈ part, isAlphaNumCh c = true ∨ c.toNat = 45 := by
  cases part with
  | nil => simp [zodLabelOk] at h
  | cons c0 rest =>
    simp only [zodLabelOk, Bool.and_eq_true, List.all_eq_true] at h
    intro c hc
    rcases List.mem_cons.mp hc with rfl | hmem
    · exact Or.inl h.1
    · have := h.2 c hmem
      simp only [Bool.or_eq_true, decide_eq_true_eq] at this
      exact this

theorem getD_append_self (p l' : List Char) (cdot x : Char) :
    (p ++ cdot :: l').getD p.length x = cdot := by
  induction p with
  | nil => rfl
  | cons a as ih => simpa using ih

theorem emailDomain_of_zod (d : List Char) (h : zodDomainOk d = true) :
    emailDomainOk d = true := by
  simp only [zodDomainOk, Bool.and_eq_true, decide_eq_true_eq, List.all_eq_true] at h
  rcases List.eq_nil_or_concat (splitOnCh 46 d) with hnil | ⟨initParts, tld, hconcat⟩
  · exact absurd hnil (splitOnCh_ne_nil 46 d)
  rw [List.concat_eq_append] at hconcat
  rw [hconcat] at h
  obtain ⟨⟨hlen, hlabels⟩, htld⟩ := h
  rw [List.getLast?_concat] at htld
  simp only [Bool.and_eq_true, decide_eq_true_eq, List.all_eq_true] at htld
  rw [List.dropLast_concat] at hlabels
  cases initParts with
  | nil => simp at hlen
  | cons p init' =>
    have hps : init' ++ [tld] ≠ [] := by simp
    obtain ⟨cdot, l', hd, hsep, hsplit⟩ :=
      splitOnCh_first 46 d p (init' ++ [tld]) hps (by rw [hconcat]; rfl)
    have hlp : zodLabelOk p = true := hlabels p (List.mem_cons_self p init')
    have hsegp : emailSegOk p = true := by
      refine emailSegOk_of_all p ?_ (fun c hc => seg_of_labelCh c (labelOk_chars p hlp c hc))
      intro hcon
      rw [hcon] at hlp
      simp [zodLabelOk] at hlp
    have hl'ne : l' ≠ [] := by
      intro hcon
      rw [hcon] at hsplit
      simp only [splitOnCh] at hsplit
      have hlen1 : (init' ++ [tld]).length = 1 := by rw [← hsplit]; rfl
      simp only [List.length_append, List.length_singleton] at hlen1
      have hinit : init' = [] := List.length_eq_zero.mp (by omega)
      rw [hinit] at hsplit
      simp only [List.nil_append] at hsplit
      injection hsplit with h1 h2
      rw [← h1] at htld
      simp at htld
    have hsegl' : emailSegOk l' = true := by
      refine emailSegOk_of_all l' hl'ne (fun c hc => ?_)
      rcases splitOnCh_chars 46 l' c hc with h46 | ⟨part, hpmem, hcmem⟩
      · exact seg_of_dot c h46
      · rw [hsplit] at hpmem
        rcases List.mem_append.mp hpmem with hinit | hlast
        · exact seg_of_labelCh c
            (labelOk_chars part (hlabels part (List.mem_cons_of_mem p hinit)) c hcmem)
        · have := htld.2 c (by rwa [List.mem_singleton.mp hlast] at hcmem)
          refine seg_of_labelCh c (Or.inl ?_)
          simp [isAlphaNumCh, this]
    unfold emailDomainOk
    apply List.any_eq_true.mpr
    have hlt : p.length < d.length := by
      rw [hd]
      simp only [List.length_append, List.length_cons]
      omega
    refine ⟨p.length, List.mem_range.mpr hlt, ?_⟩
    have hgetD : d.getD p.length ' ' = cdot := by rw [hd]; exact getD_append_self p l' cdot ' '
    have htake : d.take p.length = p := by rw [hd]; exact List.take_left p (cdot :: l')
    have hdrop : d.drop (p.length + 1) = l' := by
      rw [hd, List.append_cons]
      have hlen1 : p.length + 1 = (p ++ [cdot]).length := by simp
      rw [hlen1]
      exact List.drop_left (p ++ [cdot]) l'
    simp only [Bool.and_eq_true, decide_eq_true_eq]
    refine ⟨⟨?_, ?_⟩, ?_⟩
    · rw [hgetD, hsep]
    · rw [htake]; exact hsegp
    · rw [hdrop]; exact hsegl'

theorem matchEmailRe_of_zod (cs : List Char) (h : zodEmailOk cs = true) :
    matchEmailRe cs = true := by
  unfold zodEmailOk at h
  obtain ⟨i, hir, hcond⟩ := List.any_eq_true.mp h
  simp only [Bool.and_eq_true, decide_eq_true_eq] at hcond
  obtain ⟨⟨h64, hlocal⟩, hdom⟩ := hcond
  unfold matchEmailRe
  apply List.any_eq_true.mpr
  refine ⟨i, hir, ?_⟩
  have hseg : emailSegOk (cs.take i) = true := by
    simp only [zodLocalOk, Bool.and_eq_true, List.all_eq_true] at hlocal
    refine emailSegOk_of_all _ ?_ (fun c hc => seg_of_zodLocalCh c (hlocal.1.1.1.2 c hc))
    intro hcon
    have := hlocal.1.1.1.1
    rw [hcon] at this
    simp at this
  simp only [Bool.and_eq_true, decide_eq_true_eq]
  exact ⟨⟨h64, hseg⟩, emailDomain_of_zod _ hdom⟩

theorem tfIsStr_eq (tf : TypeField) (s : List Char) (h : tfIsStr tf s = true) :
    tf = TypeField.str s := by
  cases tf with
  | str t =>
    simp only [tfIsStr, decide_eq_true_eq] at h
    rw [h]
  | missing => simp [tfIsStr] at h
  | arr xs => simp [tfIsStr] at h
  | other => simp [tfIsStr] at h

theorem convertValue_url_err (v e : List Char)
    (h : convertValue v InferredType.url = Except.error e) : jsURLParses v = false := by
  by_cases hurl : jsURLParses v = true
  · rw [show convertValue v InferredType.url = Except.ok (JsVal.vStr v) from by
      unfold convertValue; rw [if_pos hurl]] at h
    exact Except.noConfusion h
  · exact Bool.not_eq_true _ ▸ Bool.eq_false_iff.mpr hurl

theorem convertValue_email_err (v e : List Char)
    (h : convertValue v InferredType.email = Except.error e) : matchEmailRe v = false := by
  by_cases hem : matchEmailRe v = true
  · rw [show convertValue v InferredType.email = Except.ok (JsVal.vStr v) from by
      unfold convertValue; rw [if_pos hem]] at h
    exact Except.noConfusion h
  · exact Bool.eq_false_iff.mpr hem

/-- Canonical consistency between a descriptor's structural fields and
the type its conversion is derived with — the shape every
generator-produced descriptor has (structural `type` is the canonical
mapping of the derived type; `url`/`email` carry their `format`). -/
def descriptorConsistent (p : PropSchema) : Prop :=
  match derivedType p with
  | InferredType.integer => tfIsStr p.typeF "integer".data = true
  | InferredType.number =>
    tfIsStr p.typeF "number".data = true ∨ tfIsStr p.typeF "integer".data = true
  | InferredType.port =>
    tfIsStr p.typeF "integer".data = true ∨ tfIsStr p.typeF "number".data = true
  | InferredType.json =>
    ∃ xs, p.typeF = TypeField.arr xs ∧ tfIncludes xs "object".data = true ∧
      tfIncludes xs "array".data = true
  | InferredType.url =>
    tfIsStr p.typeF "string".data = true ∧ optIsStr p.format "uri".data = true
  | InferredType.email =>
    tfIsStr p.typeF "string".data = true ∧ optIsStr p.format "email".data = true ∧
      optIsStr p.format "uri".data = false
  | _ => True

theorem zod_rejects_raw (k : List Char) (p : PropSchema) (v e : List Char)
    (hthrow : convertValue v (derivedType p) = Except.error e)
    (hcons : descriptorConsistent p) :
    ∃ m, zodParse (createZodSchema p k) (JsVal.vStr v) = Except.error m := by
  unfold descriptorConsistent at hcons
  cases ht : derivedType p with
  | string =>
    rw [ht] at hthrow
    exact Except.noConfusion hthrow
  | boolean =>
    rw [ht] at hthrow
    exact Except.noConfusion hthrow
  | integer =>
    rw [ht] at hcons
    have htF := tfIsStr_eq _ _ hcons
    refine ⟨"Expected number, received string".data, ?_⟩
    simp only [createZodSchema, htF]
    rfl
  | number =>
    rw [ht] at hcons
    rcases hcons with hcons | hcons <;>
      (have htF := tfIsStr_eq _ _ hcons;
       refine ⟨"Expected number, received string".data, ?_⟩;
       simp only [createZodSchema, htF];
       rfl)
  | port =>
    rw [ht] at hcons
    rcases hcons with hcons | hcons <;>
      (have htF := tfIsStr_eq _ _ hcons;
       refine ⟨"Expected number, received string".data, ?_⟩;
       simp only [createZodSchema, htF];
       rfl)
  | json =>
    rw [ht] at hcons
    obtain ⟨xs, htF, hobj, harr⟩ := hcons
    refine ⟨"Invalid input".data, ?_⟩
    simp only [createZodSchema, htF, hobj, harr]
    rfl
  | url =>
    rw [ht] at hcons
    obtain ⟨hstr, huri⟩ := hcons
    have htF := tfIsStr_eq _ _ hstr
    rw [ht] at hthrow
    have hurl : jsURLParses v = false := convertValue_url_err v e hthrow
    have hz : createZodSchema p k =
        Zod.zstr p.minLength (some (ZFmt.url (k ++ " must be a valid URL".data))) := by
      simp only [createZodSchema, htF, huri]
      rfl
    rw [hz]
    unfold zodParse
    cases p.minLength with
    | none =>
      refine ⟨k ++ " must be a valid URL".data, ?_⟩
      simp [zodCheckFmt, hurl]
    | some m0 =>
      by_cases hle : jsNumLe m0 (JsNum.fin ((v.length : ℚ))) = true
      · refine ⟨k ++ " must be a valid URL".data, ?_⟩
        simp [hle, zodCheckFmt, hurl]
      · refine ⟨"String must contain at least the declared minimum of character(s)".data, ?_⟩
        simp [Bool.eq_false_iff.mpr hle]
  | email =>
    rw [ht] at hcons
    obtain ⟨hstr, hemail, hnuri⟩ := hcons
    have htF := tfIsStr_eq _ _ hstr
    rw [ht] at hthrow
    have hloose : matchEmailRe v = false := convertValue_email_err v e hthrow
    have hzod : zodEmailOk v = false := by
      by_cases hz : zodEmailOk v = true
      · rw [matchEmailRe_of_zod v hz] at hloose
        exact Bool.noConfusion hloose
      · exact Bool.eq_false_iff.mpr hz
    have hz : createZodSchema p k =
        Zod.zstr p.minLength (some (ZFmt.email (k ++ " must be a valid email".data))) := by
      simp only [createZodSchema, htF, hemail, hnuri]
      rfl
    rw [hz]
    unfold zodParse
    cases p.minLength with
    | none =>
      refine ⟨k ++ " must be a valid email".data, ?_⟩
      simp [zodCheckFmt, hzod]
    | some m0 =>
      by_cases hle : jsNumLe m0 (JsNum.fin ((v.length : ℚ))) = true
      · refine ⟨k ++ " must be a valid email".data, ?_⟩
        simp [hle, zodCheckFmt, hzod]
      · refine ⟨"String must contain at least the declared minimum of character(s)".data, ?_⟩
        simp [Bool.eq_false_iff.mpr hle]

theorem validateKey_err (ci : Bool) (k : List Char) (p : PropSchema) (v m : List Char)
    (hm : zodParse (createZodSchema p k) (convertValueForValidation v p) =
      Except.error m) :
    validateKey ci k p v = some (true, formatValidationError k v p m) := by
  by_cases h : (ci || p.metaIsSecret) = true <;>
    simp [validateKey, hm, h, isWarningOnly]

theorem validateEnvCore_single (k : List Char) (p : PropSchema) (v msg : List Char)
    (ci ap : Bool) (hv : v ≠ [])
    (hkey : validateKey ci k p v = some (true, msg)) :
    (validateEnvCore ⟨[(k, p)], [], ap⟩ [(k, some v)] ci).errors = [msg] ∧
    (validateEnvCore ⟨[(k, p)], [], ap⟩ [(k, some v)] ci).success = false := by
  have hget : jsGet [(k, some v)] k = some v := by
    simp [jsGet]
  have hemp : v.isEmpty = false := List.isEmpty_eq_false.mpr hv
  unfold validateEnvCore
  simp only [List.filterMap_cons, List.filterMap_nil, hget, hemp, hkey]
  simp

/-- A descriptor whose structural type was (manually) set to `string`
while its stored `originalType` metadata still says `integer` — a shape
reachable through merge-mode manual type overrides. -/
def mismatchedProp : PropSchema :=
  { typeF := TypeField.str "string".data,
    metaOriginalType := some (JsValue.vstr "integer".data) }

/-- C9 counterexample: with this descriptor and live value `abc` the
converter throws (the derived type is `integer`, and `abc` has no
integer prefix) and the raw string is handed to the structural check as
the claim describes — but that check is `z.string()`, which accepts it:
validation reports no error line at all for the key and counts it as
validated, refuting "producing exactly one error line". -/
theorem conversion_fallback_cex :
    derivedType mismatchedProp = InferredType.integer ∧
    (convertValue "abc".data (derivedType mismatchedProp)).isOk = false ∧
    convertValueForValidation "abc".data mismatchedProp = JsVal.vStr "abc".data ∧
    (validateEnvCore ⟨[("X".data, mismatchedProp)], [], false⟩
        [("X".data, some "abc".data)] false).errors = [] ∧
    (validateEnvCore ⟨[("X".data, mismatchedProp)], [], false⟩
        [("X".data, some "abc".data)] false).validatedCount = 1 :=
  ⟨by decide, by decide, rfl, by decide, by decide⟩

/-- C9 amended: under the canonical descriptor consistency that every
generator-produced descriptor has, a conversion failure never escapes:
the caught converter error leaves the raw string as the value handed to
the structural check, which rejects it, and the run yields exactly one
error line `<KEY>=<display-value>: <message>` for that key while still
returning a report (shown for an arbitrary mode and a one-property
schema; the error line and report shape are independent of the
remaining schema fields). -/
theorem conversion_fallback_amended (k : List Char) (p : PropSchema) (v e : List Char)
    (ci ap : Bool) (hv : v ≠ [])
    (hthrow : convertValue v (derivedType p) = Except.error e)
    (hcons : descriptorConsistent p) :
    convertValueForValidation v p = JsVal.vStr v ∧
    (∃ m, validateKey ci k p v = some (true, formatValidationError k v p m)) ∧
    (∃ m, (validateEnvCore ⟨[(k, p)], [], ap⟩ [(k, some v)] ci).errors =
        [formatValidationError k v p m] ∧
      (validateEnvCore ⟨[(k, p)], [], ap⟩ [(k, some v)] ci).success = false) := by
  have hcv : convertValueForValidation v p = JsVal.vStr v := by
    unfold convertValueForValidation
    rw [hthrow]
  obtain ⟨m, hm⟩ := zod_rejects_raw k p v e hthrow hcons
  have hm' : zodParse (createZodSchema p k) (convertValueForValidation v p) =
      Except.error m := by
    rw [hcv]; exact hm
  have hkey := validateKey_err ci k p v m hm'
  obtain ⟨herr, hsucc⟩ := validateEnvCore_single k p v _ ci ap hv hkey
  exact ⟨hcv, ⟨m, hkey⟩, ⟨m, herr, hsucc⟩⟩

/-- Witness for the amended C9: an integer-typed descriptor with the
non-numeric live value `abc` — the fallback equation comes from applying
the theorem, and the single error line it guarantees is exhibited
concretely. -/
theorem conversion_fallback_amended_witness :
    convertValueForValidation "abc".data intPortProp = JsVal.vStr "abc".data ∧
    validateKey false "PORT".data intPortProp "abc".data =
      some (true, formatValidationError "PORT".data "abc".data intPortProp
        "Expected number, received string".data) ∧
    (validateEnvCore ⟨[("PORT".data, intPortProp)], [], false⟩
        [("PORT".data, some "abc".data)] false).errors =
      [formatValidationError "PORT".data "abc".data intPortProp
        "Expected number, received string".data] ∧
    (validateEnvCore ⟨[("PORT".data, intPortProp)], [], false⟩
        [("PORT".data, some "abc".data)] false).success = false :=
  ⟨(conversion_fallback_amended "PORT".data intPortProp "abc".data
      ("Cannot convert \"".data ++ "abc".data ++ "\" to integer".data) false false
      (by decide) rfl
      (show tfIsStr intPortProp.typeF "integer".data = true by decide)).1,
   by decide, by decide, by decide⟩

end DotenvGuard
